import Mathlib

/-!
Verification of the rustastic-smtp mailbox parser, framed line stream,
transaction state and command handlers, shallowly embedded from the Rust
sources. Strings are modelled as List Char (the sources only ever accept
7-bit bytes on successful paths, where Rust byte length and char count
agree). Index-based while loops of the source are rendered as structural
recursions; each definition names the source function it embeds.
-/

set_option maxRecDepth 10000

namespace Rsmtp

/-- Embeds utils::is_atext (src/src/common/utils.rs). The match arms of the
source list the nineteen symbols and the three alphanumeric ranges; here
each arm is written through the character code. -/
def is_atext (c : Char) : Bool :=
  let n := c.toNat
  n = 33 ∨ n = 35 ∨ n = 36 ∨ n = 37 ∨ n = 38 ∨ n = 39 ∨
  n = 42 ∨ n = 43 ∨ n = 45 ∨ n = 47 ∨ n = 61 ∨ n = 63 ∨
  n = 94 ∨ n = 95 ∨ n = 96 ∨ n = 123 ∨ n = 124 ∨ n = 125 ∨ n = 126 ∨
  (65 ≤ n ∧ n ≤ 90) ∨ (97 ≤ n ∧ n ≤ 122) ∨ (48 ≤ n ∧ n ≤ 57)

/-- Embeds utils::is_alnum. -/
def is_alnum (c : Char) : Bool :=
  let n := c.toNat
  (65 ≤ n ∧ n ≤ 90) ∨ (97 ≤ n ∧ n ≤ 122) ∨ (48 ≤ n ∧ n ≤ 57)

/-- Embeds utils::is_qtext_smtp: bytes 32..33, 35..91 and 93..126
(everything printable plus space, except the double quote 34 and the
backslash 92). -/
def is_qtext_smtp (c : Char) : Bool :=
  let n := c.toNat
  (32 ≤ n ∧ n ≤ 33) ∨ (35 ≤ n ∧ n ≤ 91) ∨ (93 ≤ n ∧ n ≤ 126)

/-- Embeds utils::is_quoted_pair_smtp: a backslash (92) followed by any
byte 32..126. -/
def is_quoted_pair_smtp (c1 c2 : Char) : Bool :=
  c1.toNat = 92 ∧ (32 ≤ c2.toNat ∧ c2.toNat ≤ 126)

/-- Embeds utils::get_atom_len: the while loop that counts leading atext
characters becomes a structural recursion. -/
def get_atom_len : List Char → Nat
  | [] => 0
  | c :: cs => if is_atext c then 1 + get_atom_len cs else 0

/-- Loop body of utils::get_subdomain_len after its first alphanumeric
character. The source keeps two indices, i and confirmed_min; the argument
pending is their difference, the number of dashes scanned past the last
confirmed alphanumeric character. An alphanumeric character confirms the
pending dashes plus itself, a dash only grows pending, anything else stops
with the pending dashes dropped. -/
def sd_go : List Char → Nat → Nat
  | [], _ => 0
  | c :: cs, pending =>
    if is_alnum c then pending + 1 + sd_go cs 0
    else if c = '-' then sd_go cs (pending + 1)
    else 0

/-- Embeds utils::get_subdomain_len: a subdomain starts with an
alphanumeric character and is then scanned by sd_go. -/
def get_subdomain_len : List Char → Nat
  | [] => 0
  | c :: cs => if is_alnum c then 1 + sd_go cs 0 else 0

/-- Loop body of utils::get_dot_string_len past the first atext character.
The source alternates get_atom_len with a dot check; one character of
lookahead renders the same scan structurally: a dot is consumed only when
an atom (one atext character at least) follows, so a trailing dot is not
consumed. -/
def ds_go : List Char → Nat
  | [] => 0
  | c :: cs =>
    if is_atext c then 1 + ds_go cs
    else if c = '.' then
      match cs with
      | d :: _ => if is_atext d then 1 + ds_go cs else 0
      | [] => 0
    else 0

/-- Embeds utils::get_dot_string_len: atom followed by further
dot-atom groups, a trailing dot not consumed. -/
def get_dot_string_len : List Char → Nat
  | [] => 0
  | c :: cs => if is_atext c then 1 + ds_go cs else 0

/-- Loop body of utils::get_domain_len past the first alphanumeric
character, merging get_subdomain_len and the dot chain of the source into
one scan. pending is the source gap between i and confirmed_min (dashes
scanned but not yet confirmed). A dot continues the domain only when it
directly follows a confirmed alphanumeric character (pending = 0) and an
alphanumeric character follows it, which is exactly when the source
finds a further nonempty subdomain after the dot. -/
def dom_go : List Char → Nat → Nat
  | [], _ => 0
  | c :: cs, pending =>
    if is_alnum c then pending + 1 + dom_go cs 0
    else if c = '-' then dom_go cs (pending + 1)
    else if c = '.' ∧ pending = 0 then
      match cs with
      | d :: _ => if is_alnum d then 1 + dom_go cs 0 else 0
      | [] => 0
    else 0

/-- Embeds utils::get_domain_len: subdomain followed by further
dot-subdomain groups, a trailing dot or dash not consumed. -/
def get_domain_len : List Char → Nat
  | [] => 0
  | c :: cs => if is_alnum c then 1 + dom_go cs 0 else 0

/-- Scan loop of utils::get_quoted_string_len over the content after the
opening quote: qtext advances one character, a quoted pair two, anything
else stops. The source checks qtext before the pair, and the pair needs
two characters in range. -/
def qs_scan : List Char → Nat
  | [] => 0
  | [c] => if is_qtext_smtp c then 1 + qs_scan [] else 0
  | c1 :: c2 :: cs =>
    if is_qtext_smtp c1 then 1 + qs_scan (c2 :: cs)
    else if is_quoted_pair_smtp c1 c2 then 2 + qs_scan cs
    else 0

/-- Embeds utils::get_quoted_string_len: an opening quote, scanned content,
then a closing quote right where the scan stopped; otherwise 0. The source
also rejects inputs shorter than two characters up front. -/
def get_quoted_string_len (s : List Char) : Nat :=
  if s.length < 2 then 0
  else
    match s with
    | '"' :: rest =>
      match rest.drop (qs_scan rest) with
      | '"' :: _ => qs_scan rest + 2
      | _ => 0
    | _ => 0

/-- Embeds utils::get_at_domain_len: an at sign followed by a nonempty
domain. -/
def get_at_domain_len (s : List Char) : Nat :=
  match s with
  | '@' :: rest =>
    let len := get_domain_len rest
    if len > 0 then len + 1 else 0
  | _ => 0

/-- Loop of utils::get_source_route_len: at-domains separated by commas.
The source advances an index by at least three characters per iteration
(at sign, domain character, comma), so fuel of the length of the input
plus one never runs out; recursion is on the fuel because the step drops
a computed length from the list. -/
def sr_loop : Nat → List Char → Nat
  | 0, _ => 0
  | fuel + 1, s =>
    let c := get_at_domain_len s
    if c > 0 then
      match s.drop c with
      | ',' :: rest => c + 1 + sr_loop fuel rest
      | _ => c
    else 0

/-- Embeds utils::get_source_route_len: the comma-separated at-domains,
then a colon right after them; without the colon the whole route is 0.
When the loop consumes nothing the colon may still be the first
character, exactly as in the source. -/
def get_source_route_len (s : List Char) : Nat :=
  let l := sr_loop (s.length + 1) s
  match s.drop l with
  | ':' :: _ => l + 1
  | _ => 0

/-- First index of a closing square bracket. Renders the scan loops of
utils::get_possible_ipv4_len and get_possible_ipv6_len. -/
def idx_rbracket : List Char → Option Nat
  | [] => none
  | c :: cs =>
    if c = ']' then some 0
    else match idx_rbracket cs with
      | some j => some (j + 1)
      | none => none

/-- True on the decimal digits 48..57; used by the ipv4 literal check of
the source (ip.char_at(1) between the digit characters). -/
def is_digit (c : Char) : Bool := 48 ≤ c.toNat ∧ c.toNat ≤ 57

/-- Embeds utils::get_possible_ipv4_len: an opening bracket, a digit, then
everything up to and including the first closing bracket; 0 when the input
is shorter than three characters or no closing bracket exists. -/
def get_possible_ipv4_len (s : List Char) : Nat :=
  if s.length < 3 then 0
  else match s with
    | '[' :: c :: rest =>
      if is_digit c then
        match idx_rbracket (c :: rest) with
        | some j => j + 2
        | none => 0
      else 0
    | _ => 0

/-- The six-character tag the source compares against the front of an ipv6
literal. -/
def ipv6_tag : List Char := "[Ipv6:".toList

/-- Embeds utils::get_possible_ipv6_len: the tag, then everything up to
and including the first closing bracket; 0 when the input is shorter than
seven characters or no closing bracket exists. -/
def get_possible_ipv6_len (s : List Char) : Nat :=
  if s.length < 7 ∨ s.take 6 ≠ ipv6_tag then 0
  else match idx_rbracket (s.drop 6) with
    | some j => 6 + j + 1
    | none => 0

end Rsmtp

namespace Rsmtp

-- The unit tests of src/src/common/utils.rs, replayed on the embedding.

example : get_subdomain_len ("helZo-4-you&&&".toList) = 11 := by decide
example : get_subdomain_len ("hePRo-4-you.abc".toList) = 11 := by decide
example : get_subdomain_len ("5---a-U-65".toList) = 10 := by decide
example : get_subdomain_len ([]) = 0 := by decide
example : get_subdomain_len ("heS1o-&&&".toList) = 5 := by decide
example : get_subdomain_len ("-hello-world".toList) = 0 := by decide

example : get_domain_len (".hello".toList) = 0 := by decide
example : get_domain_len ([]) = 0 := by decide
example : get_domain_len ("----".toList) = 0 := by decide
example : get_domain_len ("hello-rust.is.N1C3".toList) = 18 := by decide
example : get_domain_len ("hello-rust.is.N1C3.".toList) = 18 := by decide
example : get_domain_len ("hello-rust.is.N1C3-".toList) = 18 := by decide
example : get_domain_len ("hello-rust.is.N1C3-.".toList) = 18 := by decide
example : get_domain_len ("hello-rust.is.N1C3-&".toList) = 18 := by decide
example : get_domain_len ("hello-rust.is.N1C3.&".toList) = 18 := by decide
example : get_domain_len ("hello.bla.".toList) = 9 := by decide
example : get_domain_len ("hello-bla.".toList) = 9 := by decide

example : get_atom_len (" ---".toList) = 0 := by decide
example : get_atom_len ("!a\x7b`\\".toList) = 4 := by decide
example : get_atom_len ("!a\x7b`".toList) = 4 := by decide
example : get_atom_len ([]) = 0 := by decide

example : get_dot_string_len ([]) = 0 := by decide
example : get_dot_string_len (" fwefwe".toList) = 0 := by decide
example : get_dot_string_len ("-`-.bla.ok ".toList) = 10 := by decide
example : get_dot_string_len ("-`-.bla.ok".toList) = 10 := by decide
example : get_dot_string_len ("-`-.bla.ok.".toList) = 10 := by decide

example : get_quoted_string_len ([]) = 0 := by decide
example : get_quoted_string_len (" ".toList) = 0 := by decide
example : get_quoted_string_len ("  ".toList) = 0 := by decide
example : get_quoted_string_len (" \"".toList) = 0 := by decide
example : get_quoted_string_len (" \" \"".toList) = 0 := by decide
example : get_quoted_string_len ("\"".toList) = 0 := by decide
example : get_quoted_string_len ("\"Rust\x7b\\\\\\\"\\a\x7d\\stic".toList) = 0 := by decide
example : get_quoted_string_len ("\"\"".toList) = 2 := by decide
example : get_quoted_string_len ("\"Rust\x7b\\\\\\\"\\a\x7d\\stic\"".toList) = 19 := by decide
example : get_quoted_string_len ("\"Rust\x7b\\\\\\\"\\a\x7d\\stic\" ".toList) = 19 := by decide

example : get_at_domain_len ([]) = 0 := by decide
example : get_at_domain_len ("@".toList) = 0 := by decide
example : get_at_domain_len ("@@".toList) = 0 := by decide
example : get_at_domain_len ("@rust".toList) = 5 := by decide
example : get_at_domain_len ("@rust\x7b\x7d".toList) = 5 := by decide
example : get_at_domain_len ("@rustastic.org".toList) = 14 := by decide

example : get_source_route_len ([]) = 0 := by decide
example : get_source_route_len ("@rust,".toList) = 0 := by decide
example : get_source_route_len ("@rust".toList) = 0 := by decide
example : get_source_route_len ("@,@:".toList) = 0 := by decide
example : get_source_route_len ("@rust,@troll".toList) = 0 := by decide
example : get_source_route_len ("@rust,@tro\x7bll:".toList) = 0 := by decide
example : get_source_route_len ("@rust,@troll:".toList) = 13 := by decide
example : get_source_route_len ("@rust.is,@troll:".toList) = 16 := by decide

example : get_possible_ipv6_len ("[Ipv6:434]".toList) = 10 := by decide
example : get_possible_ipv6_len ("[Ipv6:434][]".toList) = 10 := by decide
example : get_possible_ipv6_len ("[Ipv6:434".toList) = 0 := by decide
example : get_possible_ipv6_len ("[Ipv6:]".toList) = 7 := by decide
example : get_possible_ipv6_len ("[Ipv6:]a".toList) = 7 := by decide
example : get_possible_ipv6_len ("[Ipv".toList) = 0 := by decide

example : get_possible_ipv4_len ("[Ipv6:]".toList) = 0 := by decide
example : get_possible_ipv4_len ("[1]".toList) = 3 := by decide
example : get_possible_ipv4_len ("[1]1".toList) = 3 := by decide
example : get_possible_ipv4_len ("[]".toList) = 0 := by decide

end Rsmtp

namespace Rsmtp

/-- Loop of utils::unescape_quoted_string over the input past the opening
quote: the source walks i from 1 while i < len - 1, so the last character
(the closing quote) stops the walk; an atext or qtext character is copied,
anything else is the backslash of a quoted pair and the following
character is copied instead. When the pair ends at the closing quote the
source copies that quote, as does the two-element case here. -/
def unescape_loop : List Char → List Char
  | [] => []
  | [_] => []
  | c :: d :: cs =>
    if is_atext c ∨ is_qtext_smtp c then c :: unescape_loop (d :: cs)
    else d :: unescape_loop cs

/-- Embeds utils::unescape_quoted_string. -/
def unescape_quoted_string (s : List Char) : List Char :=
  unescape_loop (s.drop 1)

/-- Loop of the second branch of utils::simplify_quoted_string: qtext is
copied; a quoted pair keeps its backslash only when it escapes a double
quote or a backslash, otherwise only the escaped character is kept. -/
def simplify_loop : List Char → List Char
  | [] => []
  | [_] => []
  | c :: d :: cs =>
    if is_qtext_smtp c then c :: simplify_loop (d :: cs)
    else if d = '"' ∨ d = '\\' then c :: d :: simplify_loop cs
    else d :: simplify_loop cs

/-- Embeds utils::simplify_quoted_string: when the unescaped content is a
full dot-string it is returned bare (also when it is empty), otherwise the
content is re-emitted between quotes with useless escapes dropped. -/
def simplify_quoted_string (s : List Char) : List Char :=
  let out := unescape_quoted_string s
  if get_dot_string_len out = out.length then out
  else '"' :: (simplify_loop (s.drop 1) ++ ['"'])

-- The unit tests of unescape_quoted_string and simplify_quoted_string.

example : unescape_quoted_string ("\"b\x7b\x7d\\\"la\\.\\bla\"".toList)
    = "b\x7b\x7d\"la.bla".toList := by decide
example : unescape_quoted_string ("\"\"".toList) = [] := by decide
example : unescape_quoted_string ("\"a\\\\\"".toList) = "a\\".toList := by decide

example : simplify_quoted_string ("\"b\x7b\x7d\\\"la\\.\\bla\"".toList)
    = "\"b\x7b\x7d\\\"la.bla\"".toList := by decide
example : simplify_quoted_string ("\"\"".toList) = [] := by decide
example : simplify_quoted_string ("\"a\\\\\"".toList) = "\"a\\\\\"".toList := by decide
example : simplify_quoted_string ("\"a\\\x7b\"".toList) = "a\x7b".toList := by decide

/-- The ip::IpAddr value type of the Rust standard library as the source
uses it: a tagged ipv4 quad or ipv6 group list, compared componentwise. -/
inductive IpAddr where
  | Ipv4Addr (a b c d : Nat)
  | Ipv6Addr (a b c d e f g h : Nat)
deriving DecidableEq, Repr

/-- Splits a list at every occurrence of the separator; n separators give
n + 1 groups. Helper for the modelled std ip parser. -/
def split_on (sep : Char) : List Char → List (List Char)
  | [] => [[]]
  | c :: cs =>
    if c = sep then [] :: split_on sep cs
    else match split_on sep cs with
      | g :: gs => (c :: g) :: gs
      | [] => [[c]]

/-- Modelled from the spec: one decimal group of the std dotted-quad ipv4
parser (the interior of an address literal is, per the spec, fed to a
standard ipv4 parser, whose code is not part of this repository): one to
three decimal digits with value at most 255. -/
def parse_dec_octet (g : List Char) : Option Nat :=
  if g ≠ [] ∧ g.length ≤ 3 ∧ g.all is_digit then
    let v := g.foldl (fun a c => a * 10 + (c.toNat - 48)) 0
    if v ≤ 255 then some v else none
  else none

/-- Modelled from the spec: the std dotted-quad ipv4 text form, exactly
four octet groups separated by dots. -/
def parse_ipv4_quad (s : List Char) : Option IpAddr :=
  match split_on '.' s with
  | [a, b, c, d] =>
    match parse_dec_octet a, parse_dec_octet b, parse_dec_octet c, parse_dec_octet d with
    | some x, some y, some z, some w => some (.Ipv4Addr x y z w)
    | _, _, _, _ => none
  | _ => none

/-- Hexadecimal digit test for the modelled ipv6 parser. -/
def is_hex_digit (c : Char) : Bool :=
  let n := c.toNat
  (48 ≤ n ∧ n ≤ 57) ∨ (97 ≤ n ∧ n ≤ 102) ∨ (65 ≤ n ∧ n ≤ 70)

/-- Value of a hexadecimal digit. -/
def hex_val (c : Char) : Nat :=
  let n := c.toNat
  if n ≤ 57 then n - 48 else if n ≤ 70 then n - 55 else n - 87

/-- Modelled from the spec: one ipv6 group, one to four hexadecimal
digits. -/
def parse_hex_group (g : List Char) : Option Nat :=
  if g ≠ [] ∧ g.length ≤ 4 ∧ g.all is_hex_digit then
    some (g.foldl (fun a c => a * 16 + hex_val c) 0)
  else none

/-- All groups of a list, each through parse_hex_group. -/
def parse_hex_groups : List (List Char) → Option (List Nat)
  | [] => some []
  | g :: gs =>
    match parse_hex_group g, parse_hex_groups gs with
    | some v, some vs => some (v :: vs)
    | _, _ => none

/-- Splits at the first double colon, when there is one. -/
def split_dcolon : List Char → Option (List Char × List Char)
  | [] => none
  | c :: cs =>
    if c = ':' ∧ cs.head? = some ':' then some ([], cs.drop 1)
    else match split_dcolon cs with
      | some (l, r) => some (c :: l, r)
      | none => none

/-- Whether a double colon occurs anywhere in the list. -/
def has_dcolon : List Char → Bool
  | [] => false
  | c :: cs => (c = ':' && cs.head? == some ':') || has_dcolon cs

/-- The colon-separated groups of a piece, none when the piece is empty
(for the sides of a double colon). -/
def groups_of (s : List Char) : List (List Char) :=
  if s = [] then [] else split_on ':' s

/-- Modelled from the spec: the std ipv6 text form, eight colon-separated
hexadecimal groups, or two runs of groups around one double colon that
expand with zero groups to eight. -/
def parse_ipv6_text (s : List Char) : Option IpAddr :=
  match split_dcolon s with
  | none =>
    match parse_hex_groups (split_on ':' s) with
    | some [a, b, c, d, e, f, g, h] => some (.Ipv6Addr a b c d e f g h)
    | _ => none
  | some (l, r) =>
    match parse_hex_groups (groups_of l), parse_hex_groups (groups_of r) with
    | some ls, some rs =>
      if ls.length + rs.length ≤ 7 then
        match ls ++ (List.replicate (8 - ls.length - rs.length) 0 ++ rs) with
        | [a, b, c, d, e, f, g, h] => some (.Ipv6Addr a b c d e f g h)
        | _ => none
      else none
    | _, _ => none

/-- Modelled from the spec: FromStr for ip::IpAddr of the Rust standard
library, to which Mailbox::parse feeds the interior of an address literal;
it recognizes the ipv4 dotted quad or the ipv6 text form. Its code is not
part of this repository. -/
def rust_from_str_ip (s : List Char) : Option IpAddr :=
  match parse_ipv4_quad s with
  | some ip => some ip
  | none => parse_ipv6_text s

/-- One decimal digit as a character. -/
def dec_digit (d : Nat) : Char := Char.ofNat (48 + d)

/-- Modelled from the spec: the decimal text of one ipv4 octet, up to
three digits without leading zeros, as the std formatter writes it. -/
def fmt_dec (n : Nat) : List Char :=
  if n ≥ 100 then [dec_digit (n / 100), dec_digit (n / 10 % 10), dec_digit (n % 10)]
  else if n ≥ 10 then [dec_digit (n / 10), dec_digit (n % 10)]
  else [dec_digit n]

/-- One hexadecimal digit as a character, lowercase letters. -/
def hex_digit_char (d : Nat) : Char :=
  if d < 10 then Char.ofNat (48 + d) else Char.ofNat (87 + d)

/-- Modelled from the spec: the hexadecimal text of one ipv6 group, up to
four digits without leading zeros. -/
def fmt_hex (n : Nat) : List Char :=
  if n ≥ 4096 then
    [hex_digit_char (n / 4096 % 16), hex_digit_char (n / 256 % 16),
     hex_digit_char (n / 16 % 16), hex_digit_char (n % 16)]
  else if n ≥ 256 then
    [hex_digit_char (n / 256), hex_digit_char (n / 16 % 16), hex_digit_char (n % 16)]
  else if n ≥ 16 then [hex_digit_char (n / 16), hex_digit_char (n % 16)]
  else [hex_digit_char n]

/-- Groups joined with single colons between them. -/
def join_groups : List (List Char) → List Char
  | [] => []
  | [g] => g
  | g :: gs => g ++ ':' :: join_groups gs

end Rsmtp

namespace Rsmtp

/-- Maximum length of the local part (common/mailbox.rs). -/
def MAX_MAILBOX_LOCAL_PART_LEN : Nat := 64

/-- Maximum length of an email address (common/mailbox.rs). -/
def MAX_MAILBOX_LEN : Nat := 254

/-- Maximum length of a domain name (common/mailbox.rs). -/
def MAX_DOMAIN_LEN : Nat := 255

/-- Embeds MailboxLocalPart of common/mailbox.rs: the smtp form (shortest
legal serialization) and the fully unescaped human form. -/
structure MailboxLocalPart where
  smtp_string : List Char
  human_string : List Char
deriving DecidableEq, Repr

/-- Embeds MailboxLocalPart::from_dot_string: both forms equal the
input. -/
def MailboxLocalPart.from_dot_string (dot_string : List Char) : MailboxLocalPart :=
  { human_string := dot_string, smtp_string := dot_string }

/-- Embeds MailboxLocalPart::from_quoted_string: the human form is the
unescaped content, the smtp form the simplified one. -/
def MailboxLocalPart.from_quoted_string (quoted_string : List Char) : MailboxLocalPart :=
  { human_string := unescape_quoted_string quoted_string,
    smtp_string := simplify_quoted_string quoted_string }

/-- Embeds MailboxForeignPart of common/mailbox.rs. -/
inductive MailboxForeignPart where
  | Domain (d : List Char)
  | IpAddr (ip : Rsmtp.IpAddr)
deriving DecidableEq, Repr

/-- Embeds MailboxParseError of common/mailbox.rs. -/
inductive MailboxParseError where
  | LocalPartTooLong
  | LocalPartUnrecognized
  | ForeignPartUnrecognized
  | DomainTooLong
  | TooLong
  | AtNotFound
deriving DecidableEq, Repr

/-- The derived Show text of a MailboxParseError, as interpolated into the
553 reply by the MAIL and RCPT handlers. -/
def MailboxParseError.show_rs : MailboxParseError → List Char
  | .LocalPartTooLong => "LocalPartTooLong".toList
  | .LocalPartUnrecognized => "LocalPartUnrecognized".toList
  | .ForeignPartUnrecognized => "ForeignPartUnrecognized".toList
  | .DomainTooLong => "DomainTooLong".toList
  | .TooLong => "TooLong".toList
  | .AtNotFound => "AtNotFound".toList

/-- Embeds Mailbox of common/mailbox.rs. -/
structure Mailbox where
  local_part : MailboxLocalPart
  foreign_part : MailboxForeignPart
deriving DecidableEq, Repr

/-- Byte-wise ascii lowering of one character, as OwnedAsciiExt
into_ascii_lower does per byte. -/
def ascii_lower (c : Char) : Char :=
  if 65 ≤ c.toNat ∧ c.toNat ≤ 90 then Char.ofNat (c.toNat + 32) else c

/-- into_ascii_lower over the whole string. -/
def str_ascii_lower (s : List Char) : List Char := s.map ascii_lower

/-- str::is_ascii: every byte below 128. -/
def is_ascii_str (s : List Char) : Bool := s.all (fun c => c.toNat < 128)

/-- The lowercase postmaster dot-string of common/mailbox.rs. -/
def postmaster_chars : List Char := "postmaster".toList

/-- The postmaster test of Mailbox::parse: the human form is ascii and its
ascii-lowered form is the word postmaster. -/
def is_postmaster (h : List Char) : Bool :=
  is_ascii_str h && (str_ascii_lower h == postmaster_chars)

/-- The local-part stage of Mailbox::parse (common/mailbox.rs lines
177..199), on the input past the source route: the dot-string production
first; when it is empty, the quoted-string production; each gated to 64
octets. Returns the local part and the consumed length. -/
def parse_local (r : List Char) : Except MailboxParseError (MailboxLocalPart × Nat) :=
  let dot_string_len := get_dot_string_len r
  if dot_string_len > 0 then
    if dot_string_len > MAX_MAILBOX_LOCAL_PART_LEN then .error .LocalPartTooLong
    else .ok (MailboxLocalPart.from_dot_string (r.take dot_string_len), dot_string_len)
  else
    let quoted_string_len := get_quoted_string_len r
    if quoted_string_len = 0 then .error .LocalPartUnrecognized
    else if quoted_string_len > MAX_MAILBOX_LOCAL_PART_LEN then .error .LocalPartTooLong
    else .ok (MailboxLocalPart.from_quoted_string (r.take quoted_string_len), quoted_string_len)

/-- The foreign-part stage of Mailbox::parse (common/mailbox.rs lines
212..247), on the input past the at sign: a domain gated to 255 octets,
else an ipv4 literal, else an ipv6 literal, their interiors fed to the std
ip parser. Returns the foreign part and the consumed length. -/
def parse_foreign (r : List Char) : Except MailboxParseError (MailboxForeignPart × Nat) :=
  let domain_len := get_domain_len r
  if domain_len > 0 then
    if domain_len > MAX_DOMAIN_LEN then .error .DomainTooLong
    else .ok (.Domain (r.take domain_len), domain_len)
  else
    let ipv4_len := get_possible_ipv4_len r
    if ipv4_len > 0 then
      match rust_from_str_ip ((r.drop 1).take (ipv4_len - 2)) with
      | some ip => .ok (.IpAddr ip, ipv4_len)
      | none => .error .ForeignPartUnrecognized
    else
      let ipv6_len := get_possible_ipv6_len r
      if ipv6_len > 0 then
        match rust_from_str_ip ((r.drop 6).take (ipv6_len - 7)) with
        | some ip => .ok (.IpAddr ip, ipv6_len)
        | none => .error .ForeignPartUnrecognized
      else .error .ForeignPartUnrecognized

/-- Embeds Mailbox::parse (common/mailbox.rs lines 170..272). The source
route is skipped and discarded; offsets against s.len() of the source
become lengths relative to the remainder r (the route length o1 is at most
the length of s), except the overall 254-octet gate, which the source
applies to the absolute offset, route included. -/
def Mailbox.parse (s : List Char) : Except MailboxParseError Mailbox :=
  let o1 := get_source_route_len s
  let r := s.drop o1
  match parse_local r with
  | .error e => .error e
  | .ok (lp, k) =>
    if k ≥ r.length then .error .AtNotFound
    else if (r.drop k).head? ≠ some '@' then .error .LocalPartUnrecognized
    else
      match parse_foreign (r.drop (k + 1)) with
      | .error e => .error e
      | .ok (fp, m) =>
        if k + 1 + m ≠ r.length then .error .ForeignPartUnrecognized
        else if o1 + (k + 1 + m) > MAX_MAILBOX_LEN then .error .TooLong
        else if is_postmaster lp.human_string then
          .ok { local_part := MailboxLocalPart.from_dot_string postmaster_chars,
                foreign_part := fp }
        else .ok { local_part := lp, foreign_part := fp }

/-- Modelled from the spec: the text of a foreign part as it appears in an
address, a bare domain or a bracketed address literal in the form the
parser itself recognizes (ipv4 dotted quad, or the Ipv6: tag before
uncompressed colon-separated groups). -/
def foreign_serialization : MailboxForeignPart → List Char
  | .Domain d => d
  | .IpAddr (.Ipv4Addr a b c d) =>
    '[' :: ((fmt_dec a ++ '.' :: (fmt_dec b ++ '.' :: (fmt_dec c ++ '.' :: fmt_dec d)))
      ++ [']'])
  | .IpAddr (.Ipv6Addr a b c d e f g h) =>
    ipv6_tag ++ (join_groups [fmt_hex a, fmt_hex b, fmt_hex c, fmt_hex d,
      fmt_hex e, fmt_hex f, fmt_hex g, fmt_hex h] ++ [']'])

/-- Modelled from the spec: the serialization of a parsed mailbox built
from the smtp form of the local part, an at sign and the foreign part. -/
def smtp_serialization (mb : Mailbox) : List Char :=
  mb.local_part.smtp_string ++ '@' :: foreign_serialization mb.foreign_part

/-- Decidable equality on Except values, for evaluating the embedding on
concrete inputs. -/
instance exceptDecEq {ε α : Type} [DecidableEq ε] [DecidableEq α] :
    DecidableEq (Except ε α) := fun x y =>
  match x, y with
  | .ok a, .ok b =>
    if h : a = b then isTrue (by rw [h]) else isFalse (by intro he; cases he; exact h rfl)
  | .error a, .error b =>
    if h : a = b then isTrue (by rw [h]) else isFalse (by intro he; cases he; exact h rfl)
  | .ok _, .error _ => isFalse (by intro he; cases he)
  | .error _, .ok _ => isFalse (by intro he; cases he)

end Rsmtp

namespace Rsmtp

-- The unit tests of common/mailbox.rs, replayed on the embedding.

example :
    MailboxLocalPart.from_dot_string ("rust.cool".toList)
      = { smtp_string := "rust.cool".toList, human_string := "rust.cool".toList } := by decide
example :
    MailboxLocalPart.from_quoted_string ("\"rust \\a cool\"".toList)
      = { smtp_string := "\"rust a cool\"".toList, human_string := "rust a cool".toList } := by
  decide
example :
    MailboxLocalPart.from_quoted_string ("\"rust.cool\"".toList)
      = { smtp_string := "rust.cool".toList, human_string := "rust.cool".toList } := by decide
example :
    MailboxLocalPart.from_quoted_string ("\"rust.cool.\"".toList)
      = { smtp_string := "\"rust.cool.\"".toList, human_string := "rust.cool.".toList } := by
  decide
example :
    MailboxLocalPart.from_quoted_string ("\"rust\\\\\\b\\;.c\\\"ool\"".toList)
      = { smtp_string := "\"rust\\\\b;.c\\\"ool\"".toList,
          human_string := "rust\\b;.c\"ool".toList } := by decide

example : (Mailbox.parse ("rust.is@rustastic.org".toList)).isOk = true := by decide
example : (Mailbox.parse ("rust.is.not@rustastic.org".toList)).isOk = true := by decide
example :
    Mailbox.parse ("\"hello\"@rust".toList)
      = .ok { local_part := { smtp_string := "hello".toList, human_string := "hello".toList },
              foreign_part := .Domain ("rust".toList) } := by decide
example :
    Mailbox.parse ("rust.is@[127.0.0.1]".toList)
      = .ok { local_part := { smtp_string := "rust.is".toList, human_string := "rust.is".toList },
              foreign_part := .IpAddr (.Ipv4Addr 127 0 0 1) } := by decide
example :
    Mailbox.parse ("rust.is@[Ipv6:::1]".toList)
      = .ok { local_part := { smtp_string := "rust.is".toList, human_string := "rust.is".toList },
              foreign_part := .IpAddr (.Ipv6Addr 0 0 0 0 0 0 0 1) } := by decide
example :
    Mailbox.parse ("rust.is@[Ipv6:2001:db8::ff00:42:8329]".toList)
      = .ok { local_part := { smtp_string := "rust.is".toList, human_string := "rust.is".toList },
              foreign_part := .IpAddr (.Ipv6Addr 0x2001 0xdb8 0 0 0 0xff00 0x42 0x8329) } := by
  decide

example :
    (Mailbox.parse (List.replicate 64 'a' ++ "@t.com".toList)).isOk = true := by decide
example :
    Mailbox.parse (List.replicate 65 'a' ++ "@t.com".toList) = .error .LocalPartTooLong := by
  decide
example : Mailbox.parse ("t @t.com\x7b".toList) = .error .LocalPartUnrecognized := by decide
example : Mailbox.parse ("t ".toList) = .error .LocalPartUnrecognized := by decide
example : Mailbox.parse ("t@\x7b\x7d".toList) = .error .ForeignPartUnrecognized := by decide
example : Mailbox.parse ("t@t.com\x7b".toList) = .error .ForeignPartUnrecognized := by decide
example :
    Mailbox.parse ("rust@".toList ++ List.replicate 255 'a') = .error .TooLong := by decide
example :
    Mailbox.parse ("rust@".toList ++ List.replicate 256 'a') = .error .DomainTooLong := by decide
example :
    (Mailbox.parse ("rust@".toList ++ List.replicate 249 'a')).isOk = true := by decide
example :
    Mailbox.parse ("rust@".toList ++ List.replicate 250 'a') = .error .TooLong := by decide
example : Mailbox.parse ("t".toList) = .error .AtNotFound := by decide

example :
    (Mailbox.parse ("PosTMAster@ok".toList)).map (fun mb => mb.local_part.human_string)
      = .ok ("postmaster".toList) := by decide
example :
    (Mailbox.parse ("postmaster@ok".toList)).map (fun mb => mb.local_part.human_string)
      = .ok ("postmaster".toList) := by decide

example : Mailbox.parse ("rust.is@[127.0.0.1".toList) = .error .ForeignPartUnrecognized := by
  decide
example : Mailbox.parse ("rust.is@[00.0.1]".toList) = .error .ForeignPartUnrecognized := by
  decide
example : Mailbox.parse ("rust.is@[::1]".toList) = .error .ForeignPartUnrecognized := by decide
example : Mailbox.parse ("rust.is@[Ipv6: ::1]".toList) = .error .ForeignPartUnrecognized := by
  decide
example : Mailbox.parse ("rust.is@[Ipv6:::1".toList) = .error .ForeignPartUnrecognized := by
  decide

-- The modelled serialization re-parses on sample values of every foreign
-- kind.

example :
    smtp_serialization
        { local_part := { smtp_string := "a".toList, human_string := "a".toList },
          foreign_part := .IpAddr (.Ipv4Addr 127 0 0 1) }
      = "a@[127.0.0.1]".toList := by decide
example :
    Mailbox.parse ("a@[127.0.0.1]".toList)
      = .ok { local_part := { smtp_string := "a".toList, human_string := "a".toList },
              foreign_part := .IpAddr (.Ipv4Addr 127 0 0 1) } := by decide
example :
    smtp_serialization
        { local_part := { smtp_string := "a".toList, human_string := "a".toList },
          foreign_part := .IpAddr (.Ipv6Addr 1 2 3 4 5 0 7 65535) }
      = "a@[Ipv6:1:2:3:4:5:0:7:ffff]".toList := by decide
example :
    Mailbox.parse ("a@[Ipv6:1:2:3:4:5:0:7:ffff]".toList)
      = .ok { local_part := { smtp_string := "a".toList, human_string := "a".toList },
              foreign_part := .IpAddr (.Ipv6Addr 1 2 3 4 5 0 7 65535) } := by decide

end Rsmtp

namespace Rsmtp

/-- The error kinds of std::io that common/stream.rs creates or matches
on. -/
inductive IoErrorKind where
  | EndOfFile
  | InvalidInput
deriving DecidableEq, Repr

/-- An IoError as the source builds it: a kind and a static description. -/
structure IoError where
  kind : IoErrorKind
  desc : String
deriving DecidableEq, Repr

/-- The LINE_TOO_LONG static of common/stream.rs. -/
def LINE_TOO_LONG : String := "line too long"

/-- The DATA_TOO_LONG static of common/stream.rs. -/
def DATA_TOO_LONG : String := "message too long"

/-- Embeds SmtpStream of common/stream.rs. The underlying socket is
modelled on its read side as the list of bytes still to arrive, with end
of file once it is empty; a call of push reads as many bytes as fit, as a
file does. The write side is modelled where the handlers are embedded, as
the list of reply lines written. The buffer capacity stays at
max_line_size, as the source allocates it. -/
structure SmtpStream where
  stream : List Char
  max_message_size : Nat
  max_line_size : Nat
  buf : List Char
deriving DecidableEq, Repr

/-- State Lf of the position_crlf scanner of common/stream.rs: a carriage
return was seen somewhere before, and the scanner now returns at the first
line feed, one less than its index. The source never leaves state Lf, so
the line feed need not be adjacent to the carriage return. -/
def pc_lf : List Char → Nat → Option Nat
  | [], _ => none
  | b :: bs, index => if b.toNat = 10 then some (index - 1) else pc_lf bs (index + 1)

/-- State Cr of the position_crlf scanner: looking for a carriage
return. -/
def pc_cr : List Char → Nat → Option Nat
  | [], _ => none
  | b :: bs, index => if b.toNat = 13 then pc_lf bs (index + 1) else pc_cr bs (index + 1)

/-- Embeds position_crlf of common/stream.rs. -/
def position_crlf (buf : List Char) : Option Nat := pc_cr buf 0

/-- Embeds SmtpStream::fill_buf: push up to capacity minus length bytes
from the underlying stream into the buffer; at end of file push gives an
EndOfFile error. -/
def SmtpStream.fill_buf (st : SmtpStream) : Except IoError Nat × SmtpStream :=
  if st.stream = [] then
    (.error { kind := .EndOfFile, desc := "end of file" }, st)
  else
    let n := st.max_line_size - st.buf.length
    let chunk := st.stream.take n
    (.ok chunk.length, { st with buf := st.buf ++ chunk, stream := st.stream.drop n })

/-- Embeds SmtpStream::find_line: at a found crlf position the line before
it is returned and the buffer advanced past it; otherwise the
InvalidInput line-too-long error. -/
def SmtpStream.find_line (st : SmtpStream) : Except IoError (List Char) × SmtpStream :=
  match position_crlf st.buf with
  | some p => (.ok (st.buf.take p), { st with buf := st.buf.drop (p + 2) })
  | none => (.error { kind := .InvalidInput, desc := LINE_TOO_LONG }, st)

/-- Embeds SmtpStream::read_line: find a line in the buffer; failing that,
fill the buffer once and look again, also when the fill reports end of
file; any other fill error surfaces. -/
def SmtpStream.read_line (st : SmtpStream) : Except IoError (List Char) × SmtpStream :=
  match st.find_line with
  | (.ok line, st1) => (.ok line, st1)
  | (.error _, _) =>
    match st.fill_buf with
    | (.error err, st1) =>
      match err.kind with
      | .EndOfFile => st1.find_line
      | _ => (.error err, st1)
    | (.ok _, st1) => st1.find_line

/-- Loop of SmtpStream::read_data. Lines accumulate into data; a line of a
single dot stops the loop only when data is already nonempty (the source
takes prior data as proof of a preceding crlf); after extending, data
longer than max_message_size is the InvalidInput message-too-long error.
Each successful read_line removes at least two bytes from buffer plus
stream together, so fuel of their combined length plus one never runs
out. -/
def read_data_go : Nat → SmtpStream → List Char → Except IoError (List Char) × SmtpStream
  | 0, st, _ => (.error { kind := .InvalidInput, desc := DATA_TOO_LONG }, st)
  | fuel + 1, st, data =>
    match st.read_line with
    | (.error err, st1) => (.error err, st1)
    | (.ok line, st1) =>
      if data.length ≠ 0 ∧ line = ['.'] then (.ok data, st1)
      else
        let data1 := data ++ line
        if data1.length > st1.max_message_size then
          (.error { kind := .InvalidInput, desc := DATA_TOO_LONG }, st1)
        else read_data_go fuel st1 data1

/-- Embeds SmtpStream::read_data. -/
def SmtpStream.read_data (st : SmtpStream) : Except IoError (List Char) × SmtpStream :=
  read_data_go (st.buf.length + st.stream.length + 1) st []

end Rsmtp

namespace Rsmtp

/-- Embeds SmtpTransactionState of common/transaction.rs. -/
inductive SmtpTransactionState where
  | Init
  | Helo
  | Mail
  | Rcpt
  | Data
deriving DecidableEq, Repr

/-- Embeds SmtpTransaction of common/transaction.rs. The Rust fields to
and from collide with reserved words here, so they are written to_ and
from_. -/
structure SmtpTransaction where
  domain : List Char
  to_ : List Mailbox
  from_ : Option Mailbox
  data : List Char
  state : SmtpTransactionState
deriving DecidableEq, Repr

/-- Embeds SmtpTransaction::new. -/
def SmtpTransaction.new : SmtpTransaction :=
  { domain := [], to_ := [], from_ := none, data := [], state := .Init }

/-- Embeds SmtpTransaction::reset: to, from and data are cleared, and the
state regresses to Helo unless it is Init. The domain field is not
touched. -/
def SmtpTransaction.reset (t : SmtpTransaction) : SmtpTransaction :=
  { t with to_ := [], from_ := none, data := [],
           state := if t.state ≠ .Init then .Helo else t.state }

/-- Embeds SmtpServerConfig of server/mod.rs. -/
structure SmtpServerConfig where
  port : Nat
  debug : Bool
  ip : List Char
  domain : List Char
  max_message_size : Nat
  max_line_size : Nat
  max_recipients : Nat
deriving DecidableEq, Repr

/-- Embeds the SmtpServerEventHandler trait of server/mod.rs, restricted
to the callbacks the embedded handlers invoke. A Rust Result of units is a
Bool, true for Ok; the callbacks are modelled pure, which loses nothing
for the claims here since no embedded handler reads handler state. -/
structure SmtpServerEventHandler where
  handle_domain : List Char → Bool
  handle_sender_address : Option Mailbox → Bool
  handle_receiver_address : Mailbox → Bool

/-- The default event handler: every callback answers Ok, as the default
trait methods do. -/
def default_eh : SmtpServerEventHandler :=
  { handle_domain := fun _ => true,
    handle_sender_address := fun _ => true,
    handle_receiver_address := fun _ => true }

-- The reply strings of server/handler.rs and server/mod.rs.

/-- Reply 250. -/
def R250 : List Char := "250 OK".toList
/-- Reply 501 of HELO without an argument. -/
def R501_domain_not_provided : List Char := "501 Domain name not provided".toList
/-- Reply 501 of HELO with an invalid domain. -/
def R501_domain_invalid : List Char := "501 Domain name is invalid".toList
/-- Reply 550 of a rejected HELO domain. -/
def R550_domain : List Char := "550 Domain not taken".toList
/-- Reply 501 of MAIL and RCPT without angle brackets. -/
def R501_angle : List Char :=
  "501 Email address invalid, must start with < and end with >".toList
/-- Reply 550 of a rejected null sender or recipient. -/
def R550_mailbox_not_available : List Char := "550 Mailbox not available".toList
/-- Reply 550 of a rejected sender. -/
def R550_mailbox_not_taken : List Char := "550 Mailbox not taken".toList
/-- Reply 553 with the Show text of the parse error interpolated. -/
def R553 (e : MailboxParseError) : List Char :=
  "553 Email address invalid: ".toList ++ e.show_rs
/-- Reply 452 of too many recipients. -/
def R452 : List Char := "452 Too many recipients".toList
/-- Reply 354 opening the data phase. -/
def R354 : List Char := "354 Start mail input; end with <CRLF>.<CRLF>".toList
/-- Reply 552 with the configured maximum interpolated. -/
def R552 (n : Nat) : List Char :=
  "552 Too much mail data, max ".toList ++ (Nat.repr n).toList ++ " bytes".toList
/-- Reply 501 of DATA or RSET with an argument. -/
def R501_no_args : List Char := "501 No arguments allowed".toList
/-- Reply 252 of VRFY. -/
def R252_vrfy : List Char := "252 Cannot VRFY user".toList
/-- Reply 252 of EXPN. -/
def R252_expn : List Char := "252 Cannot EXPN mailing list".toList
/-- Reply 502 of HELP. -/
def R502 : List Char := "502 Command not implemented".toList
/-- Reply 500 of an unrecognized command. -/
def R500 : List Char := "500 Command unrecognized".toList
/-- Reply 503 of a command outside its allowed states. -/
def R503 : List Char := "503 Bad sequence of commands".toList
/-- Reply 221 with the server domain interpolated. -/
def R221 (domain : List Char) : List Char := "221 ".toList ++ domain

/-- What one embedded command handler produces: the reply lines written to
the stream in order, the read side of the stream afterwards, the
transaction afterwards, and the Rust Result (error is the close
sentinel of QUIT and rejected identities). A handler that the source
would abort with an out-of-bounds index or fail!() yields none. -/
structure HandlerStep where
  writes : List (List Char)
  stream : SmtpStream
  transaction : SmtpTransaction
  ret : Except Unit Unit
deriving DecidableEq, Repr

/-- Embeds handle_command_helo of server/handler.rs. -/
def handle_command_helo (st : SmtpStream) (t : SmtpTransaction)
    (_config : SmtpServerConfig) (eh : SmtpServerEventHandler) (line : List Char) :
    Option HandlerStep :=
  if line.length = 0 then
    some { writes := [R501_domain_not_provided], stream := st, transaction := t, ret := .ok () }
  else if get_domain_len line ≠ line.length then
    some { writes := [R501_domain_invalid], stream := st, transaction := t, ret := .ok () }
  else if eh.handle_domain line then
    some { writes := [R250], stream := st,
           transaction := { t with domain := line, state := .Helo }, ret := .ok () }
  else
    some { writes := [R550_domain], stream := st, transaction := t, ret := .error () }

/-- Embeds handle_command_mail of server/handler.rs: the angle-bracket
check guards its index accesses with the length test first, unlike the
RCPT handler. -/
def handle_command_mail (st : SmtpStream) (t : SmtpTransaction)
    (_config : SmtpServerConfig) (eh : SmtpServerEventHandler) (line : List Char) :
    Option HandlerStep :=
  if line.length < 2 ∨ line.head? ≠ some '<' ∨ line.getLast? ≠ some '>' then
    some { writes := [R501_angle], stream := st, transaction := t, ret := .ok () }
  else if line = "<>".toList then
    if eh.handle_sender_address none then
      some { writes := [R250], stream := st,
             transaction := { t with from_ := none, state := .Mail }, ret := .ok () }
    else
      some { writes := [R550_mailbox_not_available], stream := st, transaction := t,
             ret := .error () }
  else
    match Mailbox.parse ((line.drop 1).take (line.length - 2)) with
    | .error err =>
      some { writes := [R553 err], stream := st, transaction := t, ret := .ok () }
    | .ok mailbox =>
      if eh.handle_sender_address (some mailbox) then
        some { writes := [R250], stream := st,
               transaction := { t with from_ := some mailbox, state := .Mail }, ret := .ok () }
      else
        some { writes := [R550_mailbox_not_taken], stream := st, transaction := t,
               ret := .ok () }

/-- Embeds handle_command_rcpt of server/handler.rs. The source reads
line.char_at(0) and line.char_at(line.len() - 1) with no length guard; on
an empty line the first index is out of bounds (and the second wraps the
unsigned subtraction), which aborts the task, so the empty line maps to
none here; on a nonempty line both indices are in bounds. -/
def handle_command_rcpt (st : SmtpStream) (t : SmtpTransaction)
    (config : SmtpServerConfig) (eh : SmtpServerEventHandler) (line : List Char) :
    Option HandlerStep :=
  if t.to_.length ≥ config.max_recipients then
    some { writes := [R452], stream := st, transaction := t, ret := .ok () }
  else
    match line.head?, line.getLast? with
    | some c0, some cl =>
      if c0 ≠ '<' ∨ cl ≠ '>' then
        some { writes := [R501_angle], stream := st, transaction := t, ret := .ok () }
      else
        match Mailbox.parse ((line.drop 1).take (line.length - 2)) with
        | .error err =>
          some { writes := [R553 err], stream := st, transaction := t, ret := .ok () }
        | .ok mailbox =>
          if eh.handle_receiver_address mailbox then
            some { writes := [R250], stream := st,
                   transaction := { t with to_ := t.to_ ++ [mailbox], state := .Rcpt },
                   ret := .ok () }
          else
            some { writes := [R550_mailbox_not_available], stream := st, transaction := t,
                   ret := .ok () }
    | _, _ => none

/-- Embeds handle_command_data of server/handler.rs: a 354, then the body
through read_data; on success the body and state are stored and the
transaction reset (the handle_transaction callback is commented out in
the source); on an InvalidInput error the 552 reply with the configured
maximum, the transaction left untouched; on any other error kind the
source calls fail!(), so none. -/
def handle_command_data (st : SmtpStream) (t : SmtpTransaction)
    (config : SmtpServerConfig) (_eh : SmtpServerEventHandler) (line : List Char) :
    Option HandlerStep :=
  if line.length ≠ 0 then
    some { writes := [R501_no_args], stream := st, transaction := t, ret := .ok () }
  else
    match st.read_data with
    | (.ok data, st1) =>
      some { writes := [R354, R250], stream := st1,
             transaction := SmtpTransaction.reset { t with data := data, state := .Data },
             ret := .ok () }
    | (.error err, st1) =>
      match err.kind with
      | .InvalidInput =>
        some { writes := [R354, R552 config.max_message_size], stream := st1,
               transaction := t, ret := .ok () }
      | _ => none

/-- Embeds handle_command_rset of server/handler.rs. -/
def handle_command_rset (st : SmtpStream) (t : SmtpTransaction)
    (_config : SmtpServerConfig) (_eh : SmtpServerEventHandler) (line : List Char) :
    Option HandlerStep :=
  if line.length ≠ 0 then
    some { writes := [R501_no_args], stream := st, transaction := t, ret := .ok () }
  else
    some { writes := [R250], stream := st, transaction := t.reset, ret := .ok () }

/-- Embeds handle_command_vrfy of server/handler.rs. -/
def handle_command_vrfy (st : SmtpStream) (t : SmtpTransaction)
    (_config : SmtpServerConfig) (_eh : SmtpServerEventHandler) (_line : List Char) :
    Option HandlerStep :=
  some { writes := [R252_vrfy], stream := st, transaction := t, ret := .ok () }

/-- Embeds handle_command_expn of server/handler.rs. -/
def handle_command_expn (st : SmtpStream) (t : SmtpTransaction)
    (_config : SmtpServerConfig) (_eh : SmtpServerEventHandler) (_line : List Char) :
    Option HandlerStep :=
  some { writes := [R252_expn], stream := st, transaction := t, ret := .ok () }

/-- Embeds handle_command_help of server/handler.rs (the index access is
guarded by the short-circuit length test). -/
def handle_command_help (st : SmtpStream) (t : SmtpTransaction)
    (_config : SmtpServerConfig) (_eh : SmtpServerEventHandler) (line : List Char) :
    Option HandlerStep :=
  if line.length = 0 ∨ line.head? = some ' ' then
    some { writes := [R502], stream := st, transaction := t, ret := .ok () }
  else
    some { writes := [R500], stream := st, transaction := t, ret := .ok () }

/-- Embeds handle_command_noop of server/handler.rs. -/
def handle_command_noop (st : SmtpStream) (t : SmtpTransaction)
    (_config : SmtpServerConfig) (_eh : SmtpServerEventHandler) (line : List Char) :
    Option HandlerStep :=
  if line.length = 0 ∨ line.head? = some ' ' then
    some { writes := [R250], stream := st, transaction := t, ret := .ok () }
  else
    some { writes := [R500], stream := st, transaction := t, ret := .ok () }

/-- Embeds handle_command_quit of server/handler.rs: the 221 reply with
the server domain, then the Err(()) close sentinel. -/
def handle_command_quit (st : SmtpStream) (t : SmtpTransaction)
    (config : SmtpServerConfig) (_eh : SmtpServerEventHandler) (_line : List Char) :
    Option HandlerStep :=
  some { writes := [R221 config.domain], stream := st, transaction := t, ret := .error () }

/-- Which handler function a table row carries; the source stores a
function pointer, here a tag dispatched by run_handler. -/
inductive HandlerTag where
  | helo | mail | rcpt | data | rset | vrfy | expn | help | noop | quit
deriving DecidableEq, Repr

/-- Embeds SmtpHandler of server/handler.rs: a command start string, the
allowed states and the callback. -/
structure SmtpHandler where
  command_start : List Char
  allowed_states : List SmtpTransactionState
  callback : HandlerTag
deriving DecidableEq, Repr

/-- The list named all in get_handlers. -/
def all_states : List SmtpTransactionState := [.Init, .Helo, .Mail, .Rcpt, .Data]

/-- Embeds get_handlers of server/handler.rs, in declaration order. -/
def get_handlers : List SmtpHandler :=
  [ { command_start := "HELO ".toList, allowed_states := [.Init], callback := .helo },
    { command_start := "EHLO ".toList, allowed_states := [.Init], callback := .helo },
    { command_start := "MAIL FROM:".toList, allowed_states := [.Helo], callback := .mail },
    { command_start := "RCPT TO:".toList, allowed_states := [.Mail, .Rcpt], callback := .rcpt },
    { command_start := "DATA".toList, allowed_states := [.Rcpt], callback := .data },
    { command_start := "RSET".toList, allowed_states := all_states, callback := .rset },
    { command_start := "VRFY ".toList, allowed_states := all_states, callback := .vrfy },
    { command_start := "EXPN ".toList, allowed_states := all_states, callback := .expn },
    { command_start := "HELP".toList, allowed_states := all_states, callback := .help },
    { command_start := "NOOP".toList, allowed_states := all_states, callback := .noop },
    { command_start := "QUIT".toList, allowed_states := all_states, callback := .quit } ]

/-- Byte-wise ascii uppering, as into_ascii_upper does per byte. -/
def ascii_upper (c : Char) : Char :=
  if 97 ≤ c.toNat ∧ c.toNat ≤ 122 then Char.ofNat (c.toNat - 32) else c

/-- Embeds SmtpServer::get_handler_for_line of server/mod.rs: rows in
order; a line shorter than the command start is skipped; otherwise the
first command_start.len() characters are ascii-uppered and compared (the
source calls starts_with on a truncation of exactly that length, which is
equality). -/
def get_handler_for_line : List SmtpHandler → List Char → Option SmtpHandler
  | [], _ => none
  | h :: hs, line =>
    if line.length < h.command_start.length then get_handler_for_line hs line
    else if (line.take h.command_start.length).map ascii_upper = h.command_start then some h
    else get_handler_for_line hs line

/-- Dispatch of the callback field. -/
def run_handler : HandlerTag → SmtpStream → SmtpTransaction → SmtpServerConfig →
    SmtpServerEventHandler → List Char → Option HandlerStep
  | .helo, st, t, cfg, eh, line => handle_command_helo st t cfg eh line
  | .mail, st, t, cfg, eh, line => handle_command_mail st t cfg eh line
  | .rcpt, st, t, cfg, eh, line => handle_command_rcpt st t cfg eh line
  | .data, st, t, cfg, eh, line => handle_command_data st t cfg eh line
  | .rset, st, t, cfg, eh, line => handle_command_rset st t cfg eh line
  | .vrfy, st, t, cfg, eh, line => handle_command_vrfy st t cfg eh line
  | .expn, st, t, cfg, eh, line => handle_command_expn st t cfg eh line
  | .help, st, t, cfg, eh, line => handle_command_help st t cfg eh line
  | .noop, st, t, cfg, eh, line => handle_command_noop st t cfg eh line
  | .quit, st, t, cfg, eh, line => handle_command_quit st t cfg eh line

/-- Embeds the dispatch of SmtpServer::get_reply (server/mod.rs lines
311..334) on one received line: the matched handler runs on the suffix
past its command start when the current state is allowed; a match in a
disallowed state is the fixed 503 reply with nothing else touched; no
match is the fixed 500 reply. The fixed replies the session loop would
write are recorded as writes. -/
def handle_line (st : SmtpStream) (t : SmtpTransaction) (cfg : SmtpServerConfig)
    (eh : SmtpServerEventHandler) (line : List Char) : Option HandlerStep :=
  match get_handler_for_line get_handlers line with
  | some h =>
    if h.allowed_states.contains t.state then
      run_handler h.callback st t cfg eh (line.drop h.command_start.length)
    else
      some { writes := [R503], stream := st, transaction := t, ret := .ok () }
  | none =>
    some { writes := [R500], stream := st, transaction := t, ret := .ok () }

end Rsmtp

namespace Rsmtpc

open Rsmtp

/-- A small fixture stream with the floor configuration sizes (64 KiB
message cap, 1001-byte line cap) and nothing to read. -/
def sample_stream : SmtpStream :=
  { stream := [], max_message_size := 65536, max_line_size := 1001, buf := [] }

/-- A fixture configuration at the documented floors. -/
def sample_config : SmtpServerConfig :=
  { port := 2525, debug := false, ip := "0.0.0.0".toList,
    domain := "rustastic.org".toList,
    max_message_size := 65536, max_line_size := 1001, max_recipients := 100 }

/-- A fixture mailbox, r at b. -/
def sample_mailbox : Mailbox :=
  { local_part := { smtp_string := "r".toList, human_string := "r".toList },
    foreign_part := .Domain ("b".toList) }

/-- A fixture transaction as it stands right before DATA: identified,
one sender, one recipient, state Rcpt. -/
def rcpt_transaction : SmtpTransaction :=
  { domain := "client".toList, to_ := [sample_mailbox],
    from_ := some sample_mailbox, data := [], state := .Rcpt }

/-- A fixture transaction right after MAIL: no recipient yet. -/
def mail_transaction : SmtpTransaction :=
  { domain := "client".toList, to_ := [], from_ := some sample_mailbox,
    data := [], state := .Mail }

end Rsmtpc

namespace Rsmtpc

open Rsmtp

/-- C5: read_data requires already-accumulated data before it honours the
single-dot line. With the body consisting of the single terminating dot
line, the dot is swallowed as data and the following end of file surfaces
as the line-too-long error instead of an immediate empty Ok; with the dot
line sent twice, the first dot is returned as the body. The claimed
immediate empty termination does not happen. -/
theorem C5_read_data_first_dot_line :
    (SmtpStream.read_data
        { stream := ".\r\n".toList, max_message_size := 65536,
          max_line_size := 1001, buf := [] }).1
      = .error { kind := .InvalidInput, desc := LINE_TOO_LONG }
  ∧ (SmtpStream.read_data
        { stream := ".\r\n.\r\n".toList, max_message_size := 65536,
          max_line_size := 1001, buf := [] }).1
      = .ok (".".toList) := by decide

/-- C6 counterexample: the underlying stream ends before any crlf with
bytes buffered; read_line yields the line-too-long InvalidInput error and
not the buffered bytes as a final line, against the claim. -/
theorem C6_counterexample :
    (SmtpStream.read_line
        { stream := "abc".toList, max_message_size := 65536,
          max_line_size := 1001, buf := [] }).1
      = .error { kind := .InvalidInput, desc := LINE_TOO_LONG }
  ∧ (SmtpStream.read_line
        { stream := "abc".toList, max_message_size := 65536,
          max_line_size := 1001, buf := [] }).1
      ≠ .ok ("abc".toList) := by decide

/-- C6 as amended: when no crlf is found in what one buffer fill can hold
(in particular when end of file comes before any crlf, with or without
buffered bytes), read_line returns the line-too-long InvalidInput error;
buffered bytes are never returned as a line. -/
theorem C6_amended (S : List Char) (m l : Nat)
    (h : position_crlf (S.take l) = none) :
    (SmtpStream.read_line
        { stream := S, max_message_size := m, max_line_size := l, buf := [] }).1
      = .error { kind := .InvalidInput, desc := LINE_TOO_LONG } := by
  by_cases hS : S = []
  · subst hS
    simp [SmtpStream.read_line, SmtpStream.find_line, SmtpStream.fill_buf,
      position_crlf, pc_cr]
  · simp only [SmtpStream.read_line, SmtpStream.find_line, SmtpStream.fill_buf,
      position_crlf, pc_cr, hS, if_neg, List.nil_append, List.length_nil,
      Nat.sub_zero]
    simp [hS, position_crlf] at h ⊢
    simp [h]

/-- C6 witness: the amended theorem applied at the concrete stream abc. -/
theorem C6_witness :
    position_crlf (("abc".toList).take 1001) = none
  ∧ (SmtpStream.read_line
        { stream := "abc".toList, max_message_size := 65536,
          max_line_size := 1001, buf := [] }).1
      = .error { kind := .InvalidInput, desc := LINE_TOO_LONG } :=
  ⟨by decide, C6_amended ("abc".toList) 65536 1001 (by decide)⟩

end Rsmtpc

namespace Rsmtpc

open Rsmtp

/-- Whenever read_data fails with an InvalidInput error, the DATA handler
writes the 354 and then the 552 reply carrying the configured maximum and
hands the transaction back unchanged. -/
theorem data_invalid_input_reply (st : SmtpStream) (t : SmtpTransaction)
    (cfg : SmtpServerConfig) (eh : SmtpServerEventHandler) (err : IoError)
    (st1 : SmtpStream)
    (h : st.read_data = (.error err, st1)) (hk : err.kind = .InvalidInput) :
    handle_command_data st t cfg eh []
      = some { writes := [R354, R552 cfg.max_message_size], stream := st1,
               transaction := t, ret := .ok () } := by
  simp [handle_command_data, h, hk]

/-- C7 as amended: whenever read_data fails with an InvalidInput error
(too much data, or an over-long body line), the DATA handler writes the
354 and then the 552 reply carrying the configured maximum, and the
transaction is NOT reset: it is returned exactly as it was before the
command. -/
theorem C7_amended (st : SmtpStream) (t : SmtpTransaction) (cfg : SmtpServerConfig)
    (eh : SmtpServerEventHandler) (err : IoError) (st1 : SmtpStream)
    (h : st.read_data = (.error err, st1)) (hk : err.kind = .InvalidInput) :
    handle_command_data st t cfg eh []
      = some { writes := [R354, R552 cfg.max_message_size], stream := st1,
               transaction := t, ret := .ok () } :=
  data_invalid_input_reply st t cfg eh err st1 h hk

/-- C8: a recognized command whose handler row does not allow the current
state draws the fixed 503 reply and leaves the transaction untouched; in
particular MAIL FROM in state Init. -/
theorem C8_bad_sequence :
    (∀ (st : SmtpStream) (t : SmtpTransaction) (cfg : SmtpServerConfig)
        (eh : SmtpServerEventHandler) (line : List Char) (h : SmtpHandler),
        get_handler_for_line get_handlers line = some h →
        h.allowed_states.contains t.state = false →
        handle_line st t cfg eh line
          = some { writes := [R503], stream := st, transaction := t, ret := .ok () })
  ∧ (∀ (st : SmtpStream) (t : SmtpTransaction) (cfg : SmtpServerConfig)
        (eh : SmtpServerEventHandler),
        t.state = .Init →
        handle_line st t cfg eh ("MAIL FROM:<x@y>".toList)
          = some { writes := [R503], stream := st, transaction := t, ret := .ok () }) := by
  constructor
  · intro st t cfg eh line h hfind hcont
    have hmem : t.state ∉ h.allowed_states := by simpa using hcont
    simp [handle_line, hfind, hmem]
  · intro st t cfg eh hstate
    have hfind : get_handler_for_line get_handlers ("MAIL FROM:<x@y>".toList)
        = some { command_start := "MAIL FROM:".toList, allowed_states := [.Helo],
                 callback := .mail } := by decide
    have hmem : t.state ∉ [SmtpTransactionState.Helo] := by rw [hstate]; decide
    simp only [handle_line]
    rw [hfind]
    simp [hmem]
    intro he
    rw [hstate] at he
    simp at he

/-- C8 witness: MAIL FROM on a fresh connection (state Init) elicits the
503 reply with the transaction unchanged. -/
theorem C8_witness :
    handle_line sample_stream SmtpTransaction.new sample_config default_eh
        ("MAIL FROM:<x@y>".toList)
      = some { writes := [R503], stream := sample_stream,
               transaction := SmtpTransaction.new, ret := .ok () } :=
  C8_bad_sequence.2 sample_stream SmtpTransaction.new sample_config default_eh rfl

/-- C9: reset clears to, from and data, leaves the domain supplied via
HELO or EHLO untouched, and regresses the state to Helo unless it was
Init. -/
theorem C9_reset_frame (t : SmtpTransaction) :
    (t.reset).domain = t.domain
  ∧ (t.reset).to_ = []
  ∧ (t.reset).from_ = none
  ∧ (t.reset).data = []
  ∧ (t.reset).state = (if t.state = .Init then .Init else .Helo) := by
  refine ⟨rfl, rfl, rfl, rfl, ?_⟩
  by_cases h : t.state = .Init <;> simp [SmtpTransaction.reset, h]

/-- C10: the RCPT handler on the empty argument, with room for further
recipients, reaches the unguarded character accesses of the source out of
bounds (none is the abort marker of the embedding). -/
theorem C10_rcpt_empty_arg_oob :
    handle_command_rcpt sample_stream mail_transaction sample_config default_eh [] = none
  ∧ mail_transaction.to_.length < sample_config.max_recipients := by decide

end Rsmtpc

namespace Rsmtpc

open Rsmtp

/-- The oversized DATA body of the C7 scenario: 70000 bytes of content,
then the crlf and the terminating dot line, against the 65536-byte
maximum of the floor configuration. -/
def big_stream : SmtpStream :=
  { stream := List.replicate 70000 'a' ++ ("\r\n.\r\n".toList),
    max_message_size := 65536, max_line_size := 1001, buf := [] }

/-- The stream state after the one buffer fill read_line performs on
it. -/
def big_after : SmtpStream := (big_stream.fill_buf).2

/-- One buffer fill of the oversized body holds only body bytes and no
crlf, so read_line fails with the line-too-long error. -/
theorem big_read_line :
    big_stream.read_line
      = (.error { kind := .InvalidInput, desc := LINE_TOO_LONG }, big_after) := rfl

/-- A read_line error ends any read_data round immediately. -/
theorem read_data_go_err (fuel : Nat) (st : SmtpStream) (data : List Char)
    (err : IoError) (st1 : SmtpStream) (h : st.read_line = (.error err, st1)) :
    read_data_go (fuel + 1) st data = (.error err, st1) := by
  simp [read_data_go, h]

/-- read_data propagates the line-too-long error of the oversized
body. -/
theorem big_read_data :
    big_stream.read_data
      = (.error { kind := .InvalidInput, desc := LINE_TOO_LONG }, big_after) := by
  rw [SmtpStream.read_data]
  exact read_data_go_err _ _ _ _ _ big_read_line

end Rsmtpc

namespace Rsmtpc

open Rsmtp

/-- C7 witness: the amended theorem applied to that oversized body. -/
theorem C7_witness :
    handle_command_data big_stream rcpt_transaction sample_config default_eh []
      = some { writes := [R354, R552 sample_config.max_message_size],
               stream := big_after, transaction := rcpt_transaction, ret := .ok () } :=
  C7_amended big_stream rcpt_transaction sample_config default_eh
    { kind := .InvalidInput, desc := LINE_TOO_LONG } big_after big_read_data rfl

end Rsmtpc

namespace Rsmtpc

open Rsmtp

/-- C7 counterexample: at the floor configuration, a client in state Rcpt
sends DATA and a 70000-byte body, more than the 65536-byte maximum; the
handler answers 354 then 552 carrying the maximum, but the transaction
comes back untouched, still in state Rcpt with its recipient, against the
claimed reset to Helo with a cleared envelope. -/
theorem C7_counterexample :
    (handle_command_data big_stream rcpt_transaction sample_config default_eh []).map
        (fun step => (step.writes, step.transaction, step.ret))
      = some ([R354, R552 65536], rcpt_transaction, .ok ())
  ∧ 65536 < (List.replicate 70000 'a').length
  ∧ rcpt_transaction.state = .Rcpt
  ∧ rcpt_transaction.to_ ≠ [] := by
  have h := data_invalid_input_reply big_stream rcpt_transaction sample_config
    default_eh _ _ big_read_data rfl
  refine ⟨?_, ?_, by decide, by decide⟩
  · rw [h]
    rfl
  · rw [List.length_replicate]
    norm_num

end Rsmtpc

namespace Rsmtp

-- Facts about the character classes.

/-- Every atext character is qtextSMTP (the atext symbols all lie in the
printable ranges and exclude the double quote and the backslash). -/
theorem atext_imp_qtext {c : Char} (h : is_atext c = true) : is_qtext_smtp c = true := by
  simp only [is_atext, decide_eq_true_eq] at h
  simp only [is_qtext_smtp, decide_eq_true_eq]
  omega

/-- Atext characters lie below 128. -/
theorem atext_lt_128 {c : Char} (h : is_atext c = true) : c.toNat < 128 := by
  simp only [is_atext, decide_eq_true_eq] at h
  omega

/-- The at sign is not atext. -/
theorem atext_ne_at {c : Char} (h : is_atext c = true) : c ≠ '@' := by
  intro he; rw [he] at h; exact absurd h (by decide)

/-- The colon is not atext. -/
theorem atext_ne_colon {c : Char} (h : is_atext c = true) : c ≠ ':' := by
  intro he; rw [he] at h; exact absurd h (by decide)

-- Facts about the dot-string scanner.

/-- The scan never passes the end. -/
theorem ds_go_le (u : List Char) : ds_go u ≤ u.length := by
  induction u with
  | nil => simp [ds_go]
  | cons a as ih =>
    simp only [ds_go]
    by_cases ha : is_atext a
    · simp [ha]; omega
    · simp only [ha, if_false, Bool.false_eq_true]
      by_cases hd : a = '.'
      · simp only [hd, if_true]
        cases as with
        | nil => simp
        | cons d ds' =>
          by_cases hd2 : is_atext d
          · simp only [List.length_cons] at ih ⊢
            simp [hd2]; omega
          · simp [hd2]
      · simp [hd]

/-- get_dot_string_len never passes the end. -/
theorem get_dot_string_len_le (s : List Char) : get_dot_string_len s ≤ s.length := by
  cases s with
  | nil => simp [get_dot_string_len]
  | cons c cs =>
    simp only [get_dot_string_len]
    by_cases hc : is_atext c
    · simp [hc]; have := ds_go_le cs; omega
    · simp [hc]

end Rsmtp

namespace Rsmtp

/-- A full dot-string scan extends unchanged past a character that is
neither atext nor a dot (the at sign in every use here). -/
theorem ds_go_nil : ds_go [] = 0 := rfl

/-- Unfolding: an atext head advances the scan by one. -/
theorem ds_go_atext_cons {a : Char} (ha : is_atext a = true) (as : List Char) :
    ds_go (a :: as) = 1 + ds_go as := by
  simp [ds_go, ha]

/-- Unfolding: a dot followed by an atext character advances by one. -/
theorem ds_go_dot_cons {d : Char} (hd2 : is_atext d = true) (ds2 : List Char) :
    ds_go ('.' :: d :: ds2) = 1 + ds_go (d :: ds2) := by
  simp [ds_go, hd2, show is_atext '.' = false from by decide]

/-- Unfolding: anything that is neither atext nor a dot stops the scan. -/
theorem ds_go_stop {c : Char} (hc : is_atext c = false) (hd : c ≠ '.') (r : List Char) :
    ds_go (c :: r) = 0 := by
  simp [ds_go, hc, hd]

/-- A full scan extends unchanged past a character that is neither atext
nor a dot (the at sign in every use here). -/
theorem ds_go_ext (c : Char) (hc : is_atext c = false) (hd : c ≠ '.') :
    ∀ u r, ds_go u = u.length → ds_go (u ++ c :: r) = u.length := by
  intro u
  induction u with
  | nil => intro r _; simp [ds_go_stop hc hd]
  | cons a as ih =>
    intro r h
    simp only [List.length_cons] at h ⊢
    by_cases ha : is_atext a
    · rw [ds_go_atext_cons ha] at h
      have has : ds_go as = as.length := by omega
      rw [List.cons_append, ds_go_atext_cons ha, ih r has]
      omega
    · by_cases hda : a = '.'
      · subst hda
        cases as with
        | nil =>
          rw [show ds_go ['.'] = 0 from rfl] at h
          omega
        | cons d ds2 =>
          by_cases hd2 : is_atext d
          · rw [ds_go_dot_cons hd2] at h
            simp only [List.length_cons] at h
            have has : ds_go (d :: ds2) = (d :: ds2).length := by
              simp only [List.length_cons]; omega
            have h2 := ih r has
            rw [List.cons_append] at h2
            simp only [List.length_cons] at h2
            rw [List.cons_append, List.cons_append, ds_go_dot_cons hd2]
            simp only [List.length_cons]
            omega
          · have h0 : ds_go ('.' :: d :: ds2) = 0 := by
              simp [ds_go, hd2, show is_atext '.' = false from by decide]
            rw [h0] at h
            omega
      · rw [ds_go_stop (by simpa using ha) hda] at h
        omega

/-- A nonempty full dot-string followed by an at sign scans to exactly its
own length. -/
theorem ds_ext (L : List Char) (r : List Char)
    (h : get_dot_string_len L = L.length) (hne : L ≠ []) :
    get_dot_string_len (L ++ '@' :: r) = L.length := by
  cases L with
  | nil => exact absurd rfl hne
  | cons a as =>
    rw [List.cons_append]
    simp only [List.length_cons, get_dot_string_len] at h ⊢
    by_cases ha : is_atext a
    · simp only [ha, if_true] at h ⊢
      have has : ds_go as = as.length := by omega
      rw [ds_go_ext '@' (by decide) (by decide) as r has]
      omega
    · simp [ha] at h

end Rsmtp

namespace Rsmtp

/-- The prefix a dot-string scan accepts is itself a full dot-string. -/
theorem ds_go_take : ∀ u : List Char, ds_go (u.take (ds_go u)) = ds_go u := by
  intro u
  induction u with
  | nil => rfl
  | cons a as ih =>
    by_cases ha : is_atext a
    · rw [ds_go_atext_cons ha]
      rw [Nat.add_comm 1 (ds_go as)]
      rw [List.take_succ_cons, ds_go_atext_cons ha, ih]
      omega
    · by_cases hda : a = '.'
      · subst hda
        cases as with
        | nil => rfl
        | cons d ds2 =>
          by_cases hd2 : is_atext d
          · rw [ds_go_dot_cons hd2]
            rw [Nat.add_comm 1 (ds_go (d :: ds2))]
            rw [List.take_succ_cons]
            have hpos : 0 < ds_go (d :: ds2) := by
              rw [ds_go_atext_cons hd2]; omega
            obtain ⟨k, hk⟩ : ∃ k, ds_go (d :: ds2) = k + 1 :=
              ⟨ds_go (d :: ds2) - 1, by omega⟩
            rw [hk, List.take_succ_cons, ds_go_dot_cons hd2, ← List.take_succ_cons, ← hk, ih]
            omega
          · have h0 : ds_go ('.' :: d :: ds2) = 0 := by
              simp [ds_go, hd2, show is_atext '.' = false from by decide]
            rw [h0]
            rfl
      · rw [ds_go_stop (by simpa using ha) hda]
        rfl

/-- The prefix get_dot_string_len accepts is itself a full dot-string. -/
theorem ds_take (s : List Char) :
    get_dot_string_len (s.take (get_dot_string_len s)) = get_dot_string_len s := by
  cases s with
  | nil => rfl
  | cons a as =>
    by_cases ha : is_atext a
    · simp only [get_dot_string_len, ha, if_true]
      rw [Nat.add_comm 1 (ds_go as)]
      rw [List.take_succ_cons]
      simp only [get_dot_string_len, ha, if_true, ds_go_take]
      omega
    · simp only [get_dot_string_len, ha, Bool.false_eq_true, if_false, List.take_zero]

/-- A positive scan starts at an atext character. -/
theorem ds_head_atext {a : Char} {as : List Char}
    (h : 0 < get_dot_string_len (a :: as)) : is_atext a = true := by
  by_cases ha : is_atext a
  · exact ha
  · simp [get_dot_string_len, ha] at h

/-- A nonempty all-atext list is a full dot-string. -/
theorem ds_all_atext : ∀ L : List Char, (∀ c ∈ L, is_atext c = true) → L ≠ [] →
    get_dot_string_len L = L.length := by
  have gos : ∀ u : List Char, (∀ c ∈ u, is_atext c = true) → ds_go u = u.length := by
    intro u
    induction u with
    | nil => intro _; rfl
    | cons a as ih =>
      intro hall
      rw [ds_go_atext_cons (hall a (by simp)), ih (fun c hc => hall c (by simp [hc]))]
      simp only [List.length_cons]
      omega
  intro L hall hne
  cases L with
  | nil => exact absurd rfl hne
  | cons a as =>
    simp only [get_dot_string_len, hall a (by simp), if_true,
      gos as (fun c hc => hall c (by simp [hc])), List.length_cons]
    omega

end Rsmtp

namespace Rsmtp

/-- Unfolding: a qtext head advances the quoted scan by one. -/
theorem qs_scan_qtext_cons {c : Char} (hc : is_qtext_smtp c = true) (cs : List Char) :
    qs_scan (c :: cs) = 1 + qs_scan cs := by
  cases cs with
  | nil => simp [qs_scan, hc]
  | cons d ds => simp [qs_scan, hc]

/-- Unfolding: a quoted pair advances the quoted scan by two. -/
theorem qs_scan_pair_cons {c d : Char} (hc : is_qtext_smtp c = false)
    (hp : is_quoted_pair_smtp c d = true) (cs : List Char) :
    qs_scan (c :: d :: cs) = 2 + qs_scan cs := by
  simp [qs_scan, hc, hp]

/-- Unfolding: a lone character that is not qtext stops the scan. -/
theorem qs_scan_stop1 {c : Char} (hc : is_qtext_smtp c = false) : qs_scan [c] = 0 := by
  simp [qs_scan, hc]

/-- Unfolding: not qtext and not a pair stops the scan. -/
theorem qs_scan_stop {c d : Char} (hc : is_qtext_smtp c = false)
    (hp : is_quoted_pair_smtp c d = false) (cs : List Char) :
    qs_scan (c :: d :: cs) = 0 := by
  simp [qs_scan, hc, hp]

/-- A double quote can not start a pair (its code is not the
backslash). -/
theorem pair_quote_false (d : Char) : is_quoted_pair_smtp '"' d = false := by
  simp [is_quoted_pair_smtp]

/-- The scan stops at a double quote. -/
theorem qs_scan_quote (w : List Char) : qs_scan ('"' :: w) = 0 := by
  cases w with
  | nil => exact qs_scan_stop1 (by decide)
  | cons d ds => exact qs_scan_stop (by decide) (pair_quote_false d) ds

/-- The quoted scan never passes the end. -/
theorem qs_scan_le : ∀ u : List Char, qs_scan u ≤ u.length := by
  have main : ∀ (n : Nat) (u : List Char), u.length ≤ n → qs_scan u ≤ u.length := by
    intro n
    induction n with
    | zero =>
      intro u hu
      have : u = [] := List.eq_nil_of_length_eq_zero (by omega)
      subst this; simp [qs_scan]
    | succ m ih =>
      intro u hu
      cases u with
      | nil => simp [qs_scan]
      | cons c cs =>
        by_cases hc : is_qtext_smtp c
        · rw [qs_scan_qtext_cons hc]
          have := ih cs (by simp at hu; omega)
          simp only [List.length_cons]; omega
        · cases cs with
          | nil => rw [qs_scan_stop1 (by simpa using hc)]; simp
          | cons d ds =>
            by_cases hp : is_quoted_pair_smtp c d
            · rw [qs_scan_pair_cons (by simpa using hc) hp]
              have := ih ds (by simp at hu ⊢; omega)
              simp only [List.length_cons]; omega
            · rw [qs_scan_stop (by simpa using hc) (by simpa using hp)]; simp
  exact fun u => main u.length u le_rfl

/-- The prefix a quoted scan accepts scans the same against a closing
quote and anything after it. -/
theorem qs_take_ext : ∀ (u : List Char) (w : List Char),
    qs_scan (u.take (qs_scan u) ++ '"' :: w) = qs_scan u := by
  have main : ∀ (n : Nat) (u : List Char), u.length ≤ n → ∀ w,
      qs_scan (u.take (qs_scan u) ++ '"' :: w) = qs_scan u := by
    intro n
    induction n with
    | zero =>
      intro u hu w
      have : u = [] := List.eq_nil_of_length_eq_zero (by omega)
      subst this
      simp [qs_scan, qs_scan_quote]
    | succ m ih =>
      intro u hu w
      cases u with
      | nil => simp [qs_scan, qs_scan_quote]
      | cons c cs =>
        by_cases hc : is_qtext_smtp c
        · rw [qs_scan_qtext_cons hc, Nat.add_comm 1 (qs_scan cs), List.take_succ_cons,
            List.cons_append, qs_scan_qtext_cons hc, ih cs (by simp at hu; omega) w]
          omega
        · cases cs with
          | nil =>
            rw [qs_scan_stop1 (by simpa using hc)]
            simp [qs_scan_quote]
          | cons d ds =>
            by_cases hp : is_quoted_pair_smtp c d
            · rw [qs_scan_pair_cons (by simpa using hc) hp,
                show 2 + qs_scan ds = (qs_scan ds + 1) + 1 from by omega,
                List.take_succ_cons, List.take_succ_cons, List.cons_append,
                List.cons_append,
                qs_scan_pair_cons (by simpa using hc) hp,
                ih ds (by simp at hu ⊢; omega) w]
              omega
            · rw [qs_scan_stop (by simpa using hc) (by simpa using hp)]
              simp [qs_scan_quote]
  exact fun u => main u.length u le_rfl

end Rsmtp

namespace Rsmtp

/-- The content of a well-formed quoted string: however the closing quote
is continued, the scan stops exactly at it. -/
def ValidContent (mid : List Char) : Prop :=
  ∀ w, qs_scan (mid ++ '"' :: w) = mid.length

/-- A positive get_quoted_string_len exposes the opening quote, the scan
length and the closing quote. -/
theorem quoted_len_eq (r : List Char) (hq : 0 < get_quoted_string_len r) :
    ∃ rest tail, r = '"' :: rest ∧ rest.drop (qs_scan rest) = '"' :: tail
      ∧ get_quoted_string_len r = qs_scan rest + 2 := by
  unfold get_quoted_string_len at hq
  by_cases hlen : r.length < 2
  · rw [if_pos hlen] at hq
    exact absurd hq (by simp)
  · rw [if_neg hlen] at hq
    split at hq
    · rename_i rest
      split at hq
      · rename_i tail heq
        refine ⟨rest, tail, rfl, heq, ?_⟩
        unfold get_quoted_string_len
        rw [if_neg hlen]
        simp only [heq]
      · exact absurd hq (by simp)
    · exact absurd hq (by simp)

/-- A positive get_quoted_string_len splits its input into the opening
quote, well-formed content and the closing quote. -/
theorem quoted_decompose (r : List Char) (hq : 0 < get_quoted_string_len r) :
    ∃ mid, r.take (get_quoted_string_len r) = '"' :: (mid ++ ['"'])
      ∧ ValidContent mid ∧ mid.length + 2 = get_quoted_string_len r := by
  obtain ⟨rest, tail, hr, hdrop, hlen2⟩ := quoted_len_eq r hq
  subst hr
  have hk : qs_scan rest < rest.length := by
    have h1 := qs_scan_le rest
    rcases Nat.eq_or_lt_of_le h1 with h2 | h2
    · exfalso
      rw [h2, List.drop_length] at hdrop
      exact List.noConfusion hdrop
    · exact h2
  have hget : rest[qs_scan rest]? = some '"' := by
    have h3 := List.getElem?_drop rest (qs_scan rest) 0
    rw [hdrop] at h3
    simpa using h3.symm
  refine ⟨rest.take (qs_scan rest), ?_, ?_, ?_⟩
  · rw [hlen2]
    rw [show qs_scan rest + 2 = (qs_scan rest + 1) + 1 from rfl, List.take_succ_cons]
    congr 1
    rw [List.take_succ, hget]
    rfl
  · intro w
    have h4 := qs_take_ext rest w
    rw [h4]
    simp [List.length_take, Nat.min_eq_left (le_of_lt hk)]
  · rw [hlen2]
    simp [List.length_take, Nat.min_eq_left (le_of_lt hk)]

/-- Scanning a serialized quoted string placed before anything else gives
exactly its length. -/
theorem quoted_scan_append (mid : List Char) (hv : ValidContent mid) (w : List Char) :
    get_quoted_string_len (('"' :: (mid ++ ['"'])) ++ w) = mid.length + 2 := by
  have hassoc : (('"' :: (mid ++ ['"'])) ++ w) = '"' :: (mid ++ '"' :: w) := by
    simp
  rw [hassoc]
  unfold get_quoted_string_len
  rw [if_neg (by simp; omega)]
  have hscan : qs_scan (mid ++ '"' :: w) = mid.length := hv w
  simp only [hscan, List.drop_left]

end Rsmtp

namespace Rsmtp

/-- Characters agree when their codes do. -/
theorem char_toNat_inj {c d : Char} (h : c.toNat = d.toNat) : c = d :=
  Char.ext (UInt32.toNat.inj h)

/-- The escaped character of a pair is qtext unless it is the double
quote or the backslash. -/
theorem pair_drop_qtext {c d : Char} (hp : is_quoted_pair_smtp c d = true)
    (hq : d ≠ '"') (hb : d ≠ '\\') : is_qtext_smtp d = true := by
  simp only [is_quoted_pair_smtp, decide_eq_true_eq] at hp
  simp only [is_qtext_smtp, decide_eq_true_eq]
  have h34 : d.toNat ≠ 34 := fun h => hq (char_toNat_inj h)
  have h92 : d.toNat ≠ 92 := fun h => hb (char_toNat_inj h)
  omega

/-- The first character of a pair is not qtext (it is the backslash). -/
theorem pair_head_not_qtext {c d : Char} (hp : is_quoted_pair_smtp c d = true) :
    is_qtext_smtp c = false := by
  simp only [is_quoted_pair_smtp, decide_eq_true_eq] at hp
  simp only [is_qtext_smtp, decide_eq_false_iff_not, decide_eq_true_eq]
  omega

/-- Well-formed content decomposes at its head: a qtext character before
further content, or a complete quoted pair before further content. -/
theorem valid_content_cases {c : Char} {cs : List Char} (h : ValidContent (c :: cs)) :
    (is_qtext_smtp c = true ∧ ValidContent cs)
  ∨ (∃ d ds, cs = d :: ds ∧ is_qtext_smtp c = false ∧ is_quoted_pair_smtp c d = true
       ∧ ValidContent ds) := by
  by_cases hc : is_qtext_smtp c
  · left
    refine ⟨hc, fun w => ?_⟩
    have hw := h w
    rw [List.cons_append, qs_scan_qtext_cons hc] at hw
    simp only [List.length_cons] at hw
    omega
  · right
    cases cs with
    | nil =>
      exfalso
      have hw := h []
      rw [List.cons_append, List.nil_append] at hw
      by_cases hp : is_quoted_pair_smtp c '"'
      · rw [qs_scan_pair_cons (by simpa using hc) hp] at hw
        simp [qs_scan] at hw
      · rw [qs_scan_stop (by simpa using hc) (by simpa using hp)] at hw
        simp at hw
    | cons d ds =>
      by_cases hp : is_quoted_pair_smtp c d
      · refine ⟨d, ds, rfl, by simpa using hc, hp, fun w => ?_⟩
        have hw := h w
        rw [List.cons_append, List.cons_append,
          qs_scan_pair_cons (by simpa using hc) hp] at hw
        simp only [List.length_cons] at hw
        omega
      · exfalso
        have hw := h []
        rw [List.cons_append, List.cons_append,
          qs_scan_stop (by simpa using hc) (by simpa using hp)] at hw
        simp at hw

end Rsmtp

namespace Rsmtp

/-- Unfolding: unescape copies a qtext character (the source condition,
atext or qtext, holds exactly on qtext since atext is contained in
qtext). -/
theorem unescape_loop_qtext {c : Char} (hc : is_qtext_smtp c = true)
    (u : List Char) (hu : u ≠ []) :
    unescape_loop (c :: u) = c :: unescape_loop u := by
  cases u with
  | nil => exact absurd rfl hu
  | cons d cs => simp [unescape_loop, hc]

/-- Unfolding: on a non-qtext character unescape copies the following
character instead. -/
theorem unescape_loop_pair {c : Char} (hc : is_qtext_smtp c = false)
    (d : Char) (cs : List Char) :
    unescape_loop (c :: d :: cs) = d :: unescape_loop cs := by
  have ha : is_atext c = false := by
    cases hna : is_atext c
    · rfl
    · exact absurd (atext_imp_qtext hna) (by simp [hc])
  simp [unescape_loop, hc, ha]

/-- Unfolding: simplify copies a qtext character. -/
theorem simplify_loop_qtext {c : Char} (hc : is_qtext_smtp c = true)
    (u : List Char) (hu : u ≠ []) :
    simplify_loop (c :: u) = c :: simplify_loop u := by
  cases u with
  | nil => exact absurd rfl hu
  | cons d cs => simp [simplify_loop, hc]

/-- Unfolding: simplify keeps a pair that escapes a quote or a
backslash. -/
theorem simplify_loop_keep {c d : Char} (hc : is_qtext_smtp c = false)
    (hd : d = '"' ∨ d = '\\') (cs : List Char) :
    simplify_loop (c :: d :: cs) = c :: d :: simplify_loop cs := by
  simp only [simplify_loop, hc, Bool.false_eq_true, if_false]
  rw [if_pos hd]

/-- Unfolding: simplify drops the backslash of any other pair. -/
theorem simplify_loop_drop {c d : Char} (hc : is_qtext_smtp c = false)
    (hd1 : d ≠ '"') (hd2 : d ≠ '\\') (cs : List Char) :
    simplify_loop (c :: d :: cs) = d :: simplify_loop cs := by
  simp only [simplify_loop, hc, Bool.false_eq_true, if_false]
  rw [if_neg (by tauto)]

/-- The empty content is well formed. -/
theorem valid_content_nil : ValidContent [] := by
  intro w
  simpa using qs_scan_quote w

/-- The bundle of facts about unescaping and simplifying well-formed
quoted content: both shrink the content or keep its length, the
simplified content is again well formed, unescaping it gives the same
human text, and simplifying it again changes nothing. -/
theorem content_facts : ∀ (n : Nat) (mid : List Char), mid.length ≤ n → ValidContent mid →
    (unescape_loop (mid ++ ['"'])).length ≤ mid.length
  ∧ (simplify_loop (mid ++ ['"'])).length ≤ mid.length
  ∧ ValidContent (simplify_loop (mid ++ ['"']))
  ∧ unescape_loop (simplify_loop (mid ++ ['"']) ++ ['"']) = unescape_loop (mid ++ ['"'])
  ∧ simplify_loop (simplify_loop (mid ++ ['"']) ++ ['"']) = simplify_loop (mid ++ ['"']) := by
  intro n
  induction n with
  | zero =>
    intro mid hlen _
    have : mid = [] := List.eq_nil_of_length_eq_zero (by omega)
    subst this
    refine ⟨by simp [unescape_loop], by simp [simplify_loop], ?_, ?_, ?_⟩
    · simpa [simplify_loop] using valid_content_nil
    · simp [simplify_loop]
    · simp [simplify_loop]
  | succ m ih =>
    intro mid hlen hv
    cases mid with
    | nil =>
      refine ⟨by simp [unescape_loop], by simp [simplify_loop], ?_, ?_, ?_⟩
      · simpa [simplify_loop] using valid_content_nil
      · simp [simplify_loop]
      · simp [simplify_loop]
    | cons c cs =>
      rcases valid_content_cases hv with ⟨hc, hvcs⟩ | ⟨d, ds, hcs, hc, hp, hvds⟩
      · -- qtext head
        obtain ⟨ul, sl, vs, i1, i2⟩ := ih cs (by simp at hlen; omega) hvcs
        have hne : cs ++ ['"'] ≠ [] := by simp
        have hu : unescape_loop ((c :: cs) ++ ['"']) = c :: unescape_loop (cs ++ ['"']) := by
          rw [List.cons_append, unescape_loop_qtext hc _ hne]
        have hs : simplify_loop ((c :: cs) ++ ['"']) = c :: simplify_loop (cs ++ ['"']) := by
          rw [List.cons_append, simplify_loop_qtext hc _ hne]
        refine ⟨?_, ?_, ?_, ?_, ?_⟩
        · rw [hu]; simp only [List.length_cons]; omega
        · rw [hs]; simp only [List.length_cons]; omega
        · rw [hs]
          intro w
          rw [List.cons_append, qs_scan_qtext_cons hc, vs w]
          simp only [List.length_cons]; omega
        · rw [hs, hu, List.cons_append,
            unescape_loop_qtext hc _ (by simp), i1]
        · rw [hs, List.cons_append, simplify_loop_qtext hc _ (by simp), i2]
      · -- quoted pair at the head
        subst hcs
        obtain ⟨ul, sl, vs, i1, i2⟩ := ih ds (by simp at hlen; omega) hvds
        have hu : unescape_loop ((c :: d :: ds) ++ ['"'])
            = d :: unescape_loop (ds ++ ['"']) := by
          rw [List.cons_append, List.cons_append, unescape_loop_pair hc]
        by_cases hd : d = '"' ∨ d = '\\'
        · have hs : simplify_loop ((c :: d :: ds) ++ ['"'])
              = c :: d :: simplify_loop (ds ++ ['"']) := by
            rw [List.cons_append, List.cons_append, simplify_loop_keep hc hd]
          refine ⟨?_, ?_, ?_, ?_, ?_⟩
          · rw [hu]; simp only [List.length_cons]; omega
          · rw [hs]; simp only [List.length_cons]; omega
          · rw [hs]
            intro w
            rw [List.cons_append, List.cons_append, qs_scan_pair_cons hc hp, vs w]
            simp only [List.length_cons]; omega
          · rw [hs, hu, List.cons_append, List.cons_append, unescape_loop_pair hc, i1]
          · rw [hs, List.cons_append, List.cons_append, simplify_loop_keep hc hd, i2]
        · push_neg at hd
          have hdq : is_qtext_smtp d = true := pair_drop_qtext hp hd.1 hd.2
          have hs : simplify_loop ((c :: d :: ds) ++ ['"'])
              = d :: simplify_loop (ds ++ ['"']) := by
            rw [List.cons_append, List.cons_append, simplify_loop_drop hc hd.1 hd.2]
          refine ⟨?_, ?_, ?_, ?_, ?_⟩
          · rw [hu]; simp only [List.length_cons]; omega
          · rw [hs]; simp only [List.length_cons]; omega
          · rw [hs]
            intro w
            rw [List.cons_append, qs_scan_qtext_cons hdq, vs w]
            simp only [List.length_cons]; omega
          · rw [hs, hu, List.cons_append, unescape_loop_qtext hdq _ (by simp), i1]
          · rw [hs, List.cons_append, simplify_loop_qtext hdq _ (by simp), i2]

end Rsmtp

namespace Rsmtp

/-- A dot-string scan at a double quote is empty. -/
theorem ds_quote (w : List Char) : get_dot_string_len ('"' :: w) = 0 := by
  simp [get_dot_string_len, show is_atext '"' = false from by decide]

/-- No source route is skipped on an input whose first character is
neither an at sign nor a colon. -/
theorem source_route_zero {c : Char} (s : List Char) (hat : c ≠ '@') (hcol : c ≠ ':') :
    get_source_route_len (c :: s) = 0 := by
  have h1 : get_at_domain_len (c :: s) = 0 := by
    unfold get_at_domain_len
    split
    · rename_i rest heq
      exact absurd (List.head_eq_of_cons_eq heq.symm).symm hat
    · rfl
  unfold get_source_route_len
  unfold sr_loop
  simp only [List.length_cons, h1, gt_iff_lt, Nat.lt_irrefl, if_false]
  rw [List.drop_zero]
  split
  · rename_i heq
    exact absurd (List.head_eq_of_cons_eq heq.symm).symm hcol
  · rfl

/-- The local stage accepts a nonempty full dot-string of at most 64
octets standing before the at sign. -/
theorem parse_local_dot (L : List Char) (rest : List Char)
    (h : get_dot_string_len L = L.length) (hne : L ≠ []) (hle : L.length ≤ 64) :
    parse_local (L ++ '@' :: rest) = .ok (.from_dot_string L, L.length) := by
  have hd := ds_ext L rest h hne
  unfold parse_local
  rw [hd]
  have hpos : 0 < L.length := List.length_pos.mpr hne
  rw [if_pos (by omega)]
  rw [if_neg (by simp [MAX_MAILBOX_LOCAL_PART_LEN]; omega)]
  rw [List.take_left]

/-- The local stage accepts a well-formed quoted string of at most 64
octets standing before the at sign. -/
theorem parse_local_quoted (mid : List Char) (rest : List Char)
    (hv : ValidContent mid) (hle : mid.length + 2 ≤ 64) :
    parse_local (('"' :: (mid ++ ['"'])) ++ rest)
      = .ok (.from_quoted_string ('"' :: (mid ++ ['"'])), mid.length + 2) := by
  have hds : get_dot_string_len (('"' :: (mid ++ ['"'])) ++ rest) = 0 := by
    rw [List.cons_append]; exact ds_quote _
  have hqs := quoted_scan_append mid hv rest
  unfold parse_local
  rw [hds]
  simp only [gt_iff_lt, Nat.lt_irrefl, if_false]
  rw [hqs]
  rw [if_neg (by omega)]
  rw [if_neg (by simp [MAX_MAILBOX_LOCAL_PART_LEN]; omega)]
  have htake : (('"' :: (mid ++ ['"'])) ++ rest).take (mid.length + 2)
      = '"' :: (mid ++ ['"']) := by
    have : ('"' :: (mid ++ ['"'])).length = mid.length + 2 := by simp
    rw [← this, List.take_left]
  rw [htake]

/-- The foreign stage accepts a nonempty full domain of at most 255
octets standing at the end of the input. -/
theorem parse_foreign_domain (D : List Char)
    (h : get_domain_len D = D.length) (hne : D ≠ []) (hle : D.length ≤ 255) :
    parse_foreign D = .ok (.Domain D, D.length) := by
  unfold parse_foreign
  rw [h]
  have hpos : 0 < D.length := List.length_pos.mpr hne
  rw [if_pos (by omega)]
  rw [if_neg (by simp [MAX_DOMAIN_LEN]; omega)]
  rw [List.take_length]

/-- Assembling Mailbox::parse from its stages on an input with no source
route: the result only depends on the overall length gate and the
postmaster test. -/
theorem parse_append_eval (L F : List Char) (lp : MailboxLocalPart)
    (fp : MailboxForeignPart)
    (h0 : get_source_route_len (L ++ '@' :: F) = 0)
    (hl : parse_local (L ++ '@' :: F) = .ok (lp, L.length))
    (hf : parse_foreign F = .ok (fp, F.length)) :
    Mailbox.parse (L ++ '@' :: F)
      = if L.length + 1 + F.length > 254 then .error .TooLong
        else if is_postmaster lp.human_string then
          .ok { local_part := .from_dot_string postmaster_chars, foreign_part := fp }
        else .ok { local_part := lp, foreign_part := fp } := by
  simp only [Mailbox.parse]
  rw [h0, List.drop_zero, hl]
  have hlen : (L ++ '@' :: F).length = L.length + 1 + F.length := by simp; omega
  have hdropL : (L ++ '@' :: F).drop L.length = '@' :: F := List.drop_left _ _
  have hdropL1 : (L ++ '@' :: F).drop (L.length + 1) = F := by
    have h5 : (L ++ ['@']) ++ F = L ++ '@' :: F := by simp
    rw [← h5]
    exact List.drop_left' (by simp)
  simp only []
  rw [hlen]
  rw [if_neg (show ¬(L.length ≥ L.length + 1 + F.length) from by omega)]
  rw [hdropL]
  simp only [List.head?_cons, ne_eq, not_true_eq_false, if_false]
  rw [hdropL1, hf]
  simp only []
  simp only [not_true, if_false, MAX_MAILBOX_LEN, Nat.zero_add, gt_iff_lt]

end Rsmtp

namespace Rsmtp

/-- A failing local stage fails the whole parse with its error. -/
theorem parse_err_local (s : List Char) (e : MailboxParseError)
    (h0 : get_source_route_len s = 0) (hl : parse_local s = .error e) :
    Mailbox.parse s = .error e := by
  simp only [Mailbox.parse]
  rw [h0, List.drop_zero, hl]

/-- A failing foreign stage fails the whole parse with its error. -/
theorem parse_err_foreign (L F : List Char) (lp : MailboxLocalPart)
    (e : MailboxParseError)
    (h0 : get_source_route_len (L ++ '@' :: F) = 0)
    (hl : parse_local (L ++ '@' :: F) = .ok (lp, L.length))
    (hf : parse_foreign F = .error e) :
    Mailbox.parse (L ++ '@' :: F) = .error e := by
  simp only [Mailbox.parse]
  rw [h0, List.drop_zero, hl]
  have hlen : (L ++ '@' :: F).length = L.length + 1 + F.length := by simp; omega
  have hdropL : (L ++ '@' :: F).drop L.length = '@' :: F := List.drop_left _ _
  have hdropL1 : (L ++ '@' :: F).drop (L.length + 1) = F := by
    have h5 : (L ++ ['@']) ++ F = L ++ '@' :: F := by simp
    rw [← h5]
    exact List.drop_left' (by simp)
  simp only []
  rw [hlen]
  rw [if_neg (show ¬(L.length ≥ L.length + 1 + F.length) from by omega)]
  rw [hdropL]
  simp only [List.head?_cons, ne_eq, not_true_eq_false, if_false]
  rw [hdropL1, hf]

/-- A dot-string longer than 64 octets fails the local stage with
LocalPartTooLong. -/
theorem parse_local_dot_too_long (L : List Char) (rest : List Char)
    (h : get_dot_string_len L = L.length) (hne : L ≠ []) (hgt : L.length > 64) :
    parse_local (L ++ '@' :: rest) = .error .LocalPartTooLong := by
  have hd := ds_ext L rest h hne
  unfold parse_local
  rw [hd]
  have hpos : 0 < L.length := List.length_pos.mpr hne
  rw [if_pos (by omega)]
  rw [if_pos (by simp [MAX_MAILBOX_LOCAL_PART_LEN]; omega)]

/-- A domain longer than 255 octets fails the foreign stage with
DomainTooLong. -/
theorem parse_foreign_domain_too_long (D : List Char)
    (h : get_domain_len D = D.length) (hne : D ≠ []) (hgt : D.length > 255) :
    parse_foreign D = .error .DomainTooLong := by
  unfold parse_foreign
  rw [h]
  have hpos : 0 < D.length := List.length_pos.mpr hne
  rw [if_pos (by omega)]
  rw [if_pos (by simp [MAX_DOMAIN_LEN]; omega)]

/-- The head of a nonempty full dot-string is atext, so it is neither an
at sign nor a colon and no source route is skipped before it. -/
theorem source_route_zero_dot (L : List Char) (w : List Char)
    (h : get_dot_string_len L = L.length) (hne : L ≠ []) :
    get_source_route_len (L ++ w) = 0 := by
  cases L with
  | nil => exact absurd rfl hne
  | cons a as =>
    have ha : is_atext a = true := by
      exact @ds_head_atext a as (by simp only [h, List.length_cons]; omega)
    rw [List.cons_append]
    exact source_route_zero _ (atext_ne_at ha) (atext_ne_colon ha)

/-- No source route is skipped before a quoted local part. -/
theorem source_route_zero_quote (w : List Char) :
    get_source_route_len ('"' :: w) = 0 :=
  source_route_zero _ (by decide) (by decide)

end Rsmtp

namespace Rsmtp

/-- A string whose bytewise ascii-lowered form is the word postmaster is
itself ascii. -/
theorem lower_pm_ascii (s : List Char) (h : str_ascii_lower s = postmaster_chars) :
    is_ascii_str s = true := by
  have hx : ∀ x ∈ postmaster_chars, 97 ≤ x.toNat ∧ x.toNat ≤ 122 := by decide
  rw [is_ascii_str, List.all_eq_true]
  intro c hc
  have hm : ascii_lower c ∈ postmaster_chars := by
    rw [← h, str_ascii_lower]
    exact List.mem_map_of_mem _ hc
  have hb := hx _ hm
  simp only [decide_eq_true_eq]
  by_cases hcase : 65 ≤ c.toNat ∧ c.toNat ≤ 90
  · omega
  · rw [ascii_lower, if_neg hcase] at hb
    omega

/-- All-qtext content is well formed: the quoted scan stops exactly at
the closing quote. -/
theorem all_qtext_valid : ∀ mid : List Char, mid.all is_qtext_smtp = true →
    ValidContent mid := by
  intro mid
  induction mid with
  | nil =>
    intro _ w
    simpa using qs_scan_quote w
  | cons c cs ih =>
    intro h w
    rw [List.all_cons, Bool.and_eq_true] at h
    rw [List.cons_append, qs_scan_qtext_cons h.1, ih h.2 w]
    simp only [List.length_cons]
    omega

end Rsmtp

namespace Rsmtpc

open Rsmtp

/-- C1: the claim fails on a casing of postmaster: Postmaster@x meets
every stated condition (full dot-string of at most 64 octets, full
domain of at most 255, total at most 254) yet the parsed local part is
the folded lowercase postmaster, not the input local part. -/
theorem C1_counterexample :
    get_dot_string_len ("Postmaster".toList) = ("Postmaster".toList).length ∧
    ("Postmaster".toList).length ≤ 64 ∧
    get_domain_len ("x".toList) = ("x".toList).length ∧
    ("x".toList).length ≤ 255 ∧
    ("Postmaster".toList).length + 1 + ("x".toList).length ≤ 254 ∧
    Mailbox.parse ("Postmaster@x".toList)
      ≠ .ok { local_part := { smtp_string := "Postmaster".toList,
                              human_string := "Postmaster".toList },
              foreign_part := .Domain ("x".toList) } := by
  decide

/-- C1 (amended with the postmaster exclusion): for every full dot-string
L of at most 64 octets that is not a casing of postmaster and every full
domain D of at most 255 octets with total length at most 254,
Mailbox::parse on L at D returns Ok with human and smtp forms both L and
foreign part Domain D. -/
theorem C1_amended (L D : List Char)
    (hds : get_dot_string_len L = L.length) (hLne : L ≠ [])
    (hL64 : L.length ≤ 64)
    (hdom : get_domain_len D = D.length) (hDne : D ≠ [])
    (hD255 : D.length ≤ 255)
    (htot : L.length + 1 + D.length ≤ 254)
    (hpm : is_postmaster L = false) :
    Mailbox.parse (L ++ '@' :: D)
      = .ok { local_part := { smtp_string := L, human_string := L },
              foreign_part := .Domain D } := by
  have h0 := source_route_zero_dot L ('@' :: D) hds hLne
  have hl := parse_local_dot L D hds hLne hL64
  have hf := parse_foreign_domain D hdom hDne hD255
  rw [parse_append_eval L D _ _ h0 hl hf]
  rw [if_neg (show ¬(L.length + 1 + D.length > 254) from by omega)]
  simp [MailboxLocalPart.from_dot_string, hpm]

/-- Witness instantiating C1_amended at rust.is at rustastic.org. -/
theorem C1_witness :
    Mailbox.parse ("rust.is".toList ++ '@' :: "rustastic.org".toList)
      = .ok { local_part := { smtp_string := "rust.is".toList,
                              human_string := "rust.is".toList },
              foreign_part := .Domain ("rustastic.org".toList) } :=
  C1_amended ("rust.is".toList) ("rustastic.org".toList) (by decide) (by decide)
    (by decide) (by decide) (by decide) (by decide) (by decide) (by decide)

end Rsmtpc

namespace Rsmtpc

open Rsmtp

/-- C2: the length limits act exactly at their boundaries. A 64-octet
full dot-string local part parses (with a fitting domain); a 65-octet one
fails with LocalPartTooLong whatever follows the at sign; a 255-octet
domain parses whenever the total is at most 254 (a condition no input
meets, since the local part and the at sign add at least one octet) and
the foreign stage itself does accept a full 255-octet domain; a 256-octet
full domain fails with DomainTooLong; a total of 254 parses; a total of
255 with valid parts fails with TooLong. -/
theorem C2_length_boundaries :
    (∀ L D : List Char, get_dot_string_len L = L.length → L.length = 64 →
       get_domain_len D = D.length → D ≠ [] → D.length ≤ 255 →
       L.length + 1 + D.length ≤ 254 →
       (Mailbox.parse (L ++ '@' :: D)).isOk = true) ∧
    (∀ L D : List Char, get_dot_string_len L = L.length → L.length = 65 →
       Mailbox.parse (L ++ '@' :: D) = .error .LocalPartTooLong) ∧
    (∀ L D : List Char, D.length = 255 → L.length + 1 + D.length ≤ 254 →
       (Mailbox.parse (L ++ '@' :: D)).isOk = true) ∧
    (∀ D : List Char, get_domain_len D = D.length → D.length = 255 →
       parse_foreign D = .ok (.Domain D, D.length)) ∧
    (∀ L D : List Char, get_dot_string_len L = L.length → L ≠ [] →
       L.length ≤ 64 → get_domain_len D = D.length → D.length = 256 →
       Mailbox.parse (L ++ '@' :: D) = .error .DomainTooLong) ∧
    (∀ L D : List Char, get_dot_string_len L = L.length → L ≠ [] →
       L.length ≤ 64 → get_domain_len D = D.length → D ≠ [] →
       D.length ≤ 255 → L.length + 1 + D.length = 254 →
       (Mailbox.parse (L ++ '@' :: D)).isOk = true) ∧
    (∀ L D : List Char, get_dot_string_len L = L.length → L ≠ [] →
       L.length ≤ 64 → get_domain_len D = D.length → D ≠ [] →
       D.length ≤ 255 → L.length + 1 + D.length = 255 →
       Mailbox.parse (L ++ '@' :: D) = .error .TooLong) := by
  refine ⟨?_, ?_, ?_, ?_, ?_, ?_, ?_⟩
  · intro L D hds hL hdom hDne hD255 htot
    have hLne : L ≠ [] := List.ne_nil_of_length_pos (by omega)
    have h0 := source_route_zero_dot L ('@' :: D) hds hLne
    have hl := parse_local_dot L D hds hLne (by omega)
    have hf := parse_foreign_domain D hdom hDne hD255
    rw [parse_append_eval L D _ _ h0 hl hf]
    rw [if_neg (show ¬(L.length + 1 + D.length > 254) from by omega)]
    cases h : is_postmaster ((MailboxLocalPart.from_dot_string L).human_string) <;>
      simp [h, Except.isOk, Except.toBool]
  · intro L D hds hL
    have hLne : L ≠ [] := List.ne_nil_of_length_pos (by omega)
    have h0 := source_route_zero_dot L ('@' :: D) hds hLne
    exact parse_err_local _ _ h0 (parse_local_dot_too_long L D hds hLne (by omega))
  · intro L D hD htot
    omega
  · intro D hdom hD
    exact parse_foreign_domain D hdom (List.ne_nil_of_length_pos (by omega)) (by omega)
  · intro L D hds hLne hL64 hdom hD
    have h0 := source_route_zero_dot L ('@' :: D) hds hLne
    have hl := parse_local_dot L D hds hLne hL64
    have hf := parse_foreign_domain_too_long D hdom
      (List.ne_nil_of_length_pos (by omega)) (by omega)
    exact parse_err_foreign L D _ _ h0 hl hf
  · intro L D hds hLne hL64 hdom hDne hD255 htot
    have h0 := source_route_zero_dot L ('@' :: D) hds hLne
    have hl := parse_local_dot L D hds hLne hL64
    have hf := parse_foreign_domain D hdom hDne hD255
    rw [parse_append_eval L D _ _ h0 hl hf]
    rw [if_neg (show ¬(L.length + 1 + D.length > 254) from by omega)]
    cases h : is_postmaster ((MailboxLocalPart.from_dot_string L).human_string) <;>
      simp [h, Except.isOk, Except.toBool]
  · intro L D hds hLne hL64 hdom hDne hD255 htot
    have h0 := source_route_zero_dot L ('@' :: D) hds hLne
    have hl := parse_local_dot L D hds hLne hL64
    have hf := parse_foreign_domain D hdom hDne hD255
    rw [parse_append_eval L D _ _ h0 hl hf]
    rw [if_pos (show L.length + 1 + D.length > 254 from by omega)]

/-- Witness instantiating the boundary cases of C2_length_boundaries at
concrete replicated inputs. -/
theorem C2_witness :
    (Mailbox.parse (List.replicate 64 'a' ++ '@' :: "rustastic.org".toList)).isOk
      = true ∧
    Mailbox.parse (List.replicate 65 'a' ++ '@' :: "x".toList)
      = .error .LocalPartTooLong ∧
    parse_foreign (List.replicate 255 'b') = .ok (.Domain (List.replicate 255 'b'), 255) ∧
    Mailbox.parse ("a".toList ++ '@' :: List.replicate 256 'b')
      = .error .DomainTooLong ∧
    (Mailbox.parse (List.replicate 64 'a' ++ '@' :: List.replicate 189 'b')).isOk
      = true ∧
    Mailbox.parse (List.replicate 64 'a' ++ '@' :: List.replicate 190 'b')
      = .error .TooLong := by
  refine ⟨?_, ?_, ?_, ?_, ?_, ?_⟩
  · exact C2_length_boundaries.1 _ _ (by decide) (by decide) (by decide) (by decide)
      (by decide) (by decide)
  · exact C2_length_boundaries.2.1 _ _ (by decide) (by decide)
  · have h := C2_length_boundaries.2.2.2.1 (List.replicate 255 'b') (by decide) (by decide)
    simpa using h
  · exact C2_length_boundaries.2.2.2.2.1 _ _ (by decide) (by decide) (by decide)
      (by decide) (by decide)
  · exact C2_length_boundaries.2.2.2.2.2.1 _ _ (by decide) (by decide) (by decide)
      (by decide) (by decide) (by decide) (by decide)
  · exact C2_length_boundaries.2.2.2.2.2.2 _ _ (by decide) (by decide) (by decide)
      (by decide) (by decide) (by decide) (by decide)

end Rsmtpc

namespace Rsmtpc

open Rsmtp

/-- C3: any casing of postmaster as local part folds to the lowercase
dot-string postmaster in both forms, for every valid foreign part: a
foreign part is valid when the foreign stage accepts its text in full
(a domain or an ipv4 or ipv6 address literal). Dot-string source: a full
dot-string whose bytewise ascii-lowered form is the word postmaster.
Quoted source: a well-formed quoted string whose unescaped content
ascii-lowers to the word postmaster. In both cases the parsed local part
has smtp and human forms equal to the lowercase postmaster, next to the
parsed foreign part. -/
theorem C3_postmaster_fold :
    (∀ C F : List Char, ∀ fp : MailboxForeignPart,
       str_ascii_lower C = postmaster_chars →
       get_dot_string_len C = C.length →
       parse_foreign F = .ok (fp, F.length) →
       C.length + 1 + F.length ≤ 254 →
       Mailbox.parse (C ++ '@' :: F)
         = .ok { local_part := { smtp_string := postmaster_chars,
                                 human_string := postmaster_chars },
                 foreign_part := fp }) ∧
    (∀ mid F : List Char, ∀ fp : MailboxForeignPart, ValidContent mid →
       str_ascii_lower (unescape_quoted_string ('"' :: (mid ++ ['"'])))
         = postmaster_chars →
       mid.length + 2 ≤ 64 →
       parse_foreign F = .ok (fp, F.length) →
       (mid.length + 2) + 1 + F.length ≤ 254 →
       Mailbox.parse (('"' :: (mid ++ ['"'])) ++ '@' :: F)
         = .ok { local_part := { smtp_string := postmaster_chars,
                                 human_string := postmaster_chars },
                 foreign_part := fp }) := by
  constructor
  · intro C F fp hmap hds hf htot
    have hascii := lower_pm_ascii C hmap
    have hCne : C ≠ [] := by
      intro hC
      rw [hC] at hmap
      exact absurd hmap.symm (by decide)
    have hC64 : C.length ≤ 64 := by
      have : C.length = postmaster_chars.length := by
        rw [← hmap, str_ascii_lower, List.length_map]
      simp [postmaster_chars] at this
      omega
    have h0 := source_route_zero_dot C ('@' :: F) hds hCne
    have hl := parse_local_dot C F hds hCne hC64
    rw [parse_append_eval C F _ _ h0 hl hf]
    rw [if_neg (show ¬(C.length + 1 + F.length > 254) from by omega)]
    have hpm : is_postmaster C = true := by
      simp [is_postmaster, hmap, hascii]
    simp [MailboxLocalPart.from_dot_string, hpm]
  · intro mid F fp hv hmap hle hf htot
    have hQlen : ('"' :: (mid ++ ['"'])).length = mid.length + 2 := by simp
    have h0 : get_source_route_len (('"' :: (mid ++ ['"'])) ++ '@' :: F) = 0 := by
      rw [List.cons_append]
      exact source_route_zero_quote _
    have hl := parse_local_quoted mid ('@' :: F) hv hle
    rw [← hQlen] at hl
    rw [parse_append_eval _ F _ _ h0 hl hf]
    rw [if_neg (show ¬(('"' :: (mid ++ ['"'])).length + 1 + F.length > 254) from by
      rw [hQlen]; omega)]
    have hascii := lower_pm_ascii _ hmap
    have hpm : is_postmaster (unescape_quoted_string ('"' :: (mid ++ ['"']))) = true := by
      simp [is_postmaster, hmap, hascii]
    simp [MailboxLocalPart.from_quoted_string, MailboxLocalPart.from_dot_string, hpm]

/-- Witness instantiating both halves of C3_postmaster_fold: the mixed
casing PoStMaStEr as a bare dot-string before a domain, and POSTMASTER
inside quotes before the ipv4 address literal foreign part of
127.0.0.1. -/
theorem C3_witness :
    Mailbox.parse ("PoStMaStEr".toList ++ '@' :: "rustastic.org".toList)
      = .ok { local_part := { smtp_string := "postmaster".toList,
                              human_string := "postmaster".toList },
              foreign_part := .Domain ("rustastic.org".toList) } ∧
    Mailbox.parse (('"' :: ("POSTMASTER".toList ++ ['"'])) ++ '@' :: "[127.0.0.1]".toList)
      = .ok { local_part := { smtp_string := "postmaster".toList,
                              human_string := "postmaster".toList },
              foreign_part := .IpAddr (.Ipv4Addr 127 0 0 1) } := by
  constructor
  · have h := C3_postmaster_fold.1 ("PoStMaStEr".toList) ("rustastic.org".toList)
      (.Domain ("rustastic.org".toList)) (by decide) (by decide) (by decide) (by decide)
    simpa [postmaster_chars] using h
  · have h := C3_postmaster_fold.2 ("POSTMASTER".toList) ("[127.0.0.1]".toList)
      (.IpAddr (.Ipv4Addr 127 0 0 1)) (all_qtext_valid _ (by decide)) (by decide)
      (by decide) (by decide) (by decide)
    simpa [postmaster_chars] using h

end Rsmtpc

namespace Rsmtp

/-- The decimal text of an octet value parses back to the value, holds at
most three characters, is nonempty and holds only digits. -/
theorem fmt_dec_ok : ∀ n, n < 256 → parse_dec_octet (fmt_dec n) = some n
    ∧ (fmt_dec n).length ≤ 3 ∧ fmt_dec n ≠ []
    ∧ (fmt_dec n).all is_digit = true := by decide

/-- A digit character is not a dot, a closing bracket or a colon. -/
theorem digit_ne {c : Char} (h : is_digit c = true) :
    c ≠ '.' ∧ c ≠ ']' ∧ c ≠ ':' := by
  refine ⟨?_, ?_, ?_⟩ <;> intro he <;> rw [he] at h <;> exact absurd h (by decide)

/-- A hexadecimal digit character below sixteen round-trips through its
character and is a hexadecimal digit. -/
theorem hex_digit_char_facts : ∀ d, d < 16 →
    hex_val (hex_digit_char d) = d ∧ is_hex_digit (hex_digit_char d) = true := by decide

/-- A hexadecimal digit character is not a colon, a closing bracket or a
dot. -/
theorem hex_ne {c : Char} (h : is_hex_digit c = true) :
    c ≠ ':' ∧ c ≠ ']' ∧ c ≠ '.' := by
  refine ⟨?_, ?_, ?_⟩ <;> intro he <;> rw [he] at h <;> exact absurd h (by decide)

/-- The hexadecimal group text is never empty. -/
theorem fmt_hex_ne_nil (n : Nat) : fmt_hex n ≠ [] := by
  rw [fmt_hex]
  split_ifs <;> simp

/-- The hexadecimal group text holds at most four characters. -/
theorem fmt_hex_len (n : Nat) : (fmt_hex n).length ≤ 4 := by
  rw [fmt_hex]
  split_ifs <;> simp

/-- The hexadecimal group text of a group value holds only hexadecimal
digits. -/
theorem fmt_hex_all_hex (n : Nat) (h : n < 65536) :
    (fmt_hex n).all is_hex_digit = true := by
  have hh : ∀ d, d < 16 → is_hex_digit (hex_digit_char d) = true :=
    fun d hd => (hex_digit_char_facts d hd).2
  rw [fmt_hex]
  split_ifs with h1 h2 h3
  · simp only [List.all_cons, List.all_nil, Bool.and_true]
    rw [hh _ (by omega), hh _ (by omega), hh _ (by omega), hh _ (by omega)]
    rfl
  · simp only [List.all_cons, List.all_nil, Bool.and_true]
    rw [hh _ (by omega), hh _ (by omega), hh _ (by omega)]
    rfl
  · simp only [List.all_cons, List.all_nil, Bool.and_true]
    rw [hh _ (by omega), hh _ (by omega)]
    rfl
  · simp only [List.all_cons, List.all_nil, Bool.and_true]
    rw [hh _ (by omega)]

end Rsmtp

namespace Rsmtp

/-- The hexadecimal group text of a group value parses back to the
value. -/
theorem parse_hex_group_fmt (n : Nat) (h : n < 65536) :
    parse_hex_group (fmt_hex n) = some n := by
  have hv : ∀ d, d < 16 → hex_val (hex_digit_char d) = d :=
    fun d hd => (hex_digit_char_facts d hd).1
  rw [parse_hex_group,
    if_pos ⟨fmt_hex_ne_nil n, fmt_hex_len n, fmt_hex_all_hex n h⟩]
  congr 1
  rw [fmt_hex]
  split_ifs with h1 h2 h3
  · simp only [List.foldl_cons, List.foldl_nil]
    rw [hv _ (by omega), hv _ (by omega), hv _ (by omega), hv _ (by omega)]
    omega
  · simp only [List.foldl_cons, List.foldl_nil]
    rw [hv _ (by omega), hv _ (by omega), hv _ (by omega)]
    omega
  · simp only [List.foldl_cons, List.foldl_nil]
    rw [hv _ (by omega), hv _ (by omega)]
    omega
  · simp only [List.foldl_cons, List.foldl_nil]
    rw [hv _ (by omega)]
    omega

end Rsmtp

namespace Rsmtp

/-- A list without the separator splits to itself alone. -/
theorem split_on_no_sep (sep : Char) : ∀ g : List Char, (∀ c ∈ g, c ≠ sep) →
    split_on sep g = [g] := by
  intro g
  induction g with
  | nil => intro _; rfl
  | cons c g ih =>
    intro h
    rw [split_on, if_neg (h c (by simp)), ih (fun x hx => h x (by simp [hx]))]

/-- Splitting takes off a separator-free group standing before the first
separator. -/
theorem split_on_sep_cons (sep : Char) : ∀ (g : List Char) (rest : List Char),
    (∀ c ∈ g, c ≠ sep) →
    split_on sep (g ++ sep :: rest) = g :: split_on sep rest := by
  intro g
  induction g with
  | nil =>
    intro rest _
    simp [split_on]
  | cons c g ih =>
    intro rest h
    rw [List.cons_append, split_on, if_neg (h c (by simp)),
      ih rest (fun x hx => h x (by simp [hx]))]

/-- Splitting inverts joining when no group holds the separator. -/
theorem split_on_join : ∀ gs : List (List Char),
    (∀ g ∈ gs, ∀ c ∈ g, c ≠ ':') → gs ≠ [] →
    split_on ':' (join_groups gs) = gs := by
  intro gs
  induction gs with
  | nil => intro _ hne; exact absurd rfl hne
  | cons g gs ih =>
    intro h _
    cases gs with
    | nil => exact split_on_no_sep ':' g (h g (by simp))
    | cons g2 gs2 =>
      rw [join_groups, split_on_sep_cons ':' g _ (h g (by simp)),
        ih (fun x hx c hc => h x (by simp [hx]) c hc) (by simp)]
      simp

/-- Every character of a join is a character of a group or the
separating colon. -/
theorem join_mem {p : Char → Prop} : ∀ gs : List (List Char),
    (∀ g ∈ gs, ∀ c ∈ g, p c) → p ':' → ∀ c ∈ join_groups gs, p c := by
  intro gs
  induction gs with
  | nil => intro _ _ c hc; exact absurd hc (by simp [join_groups])
  | cons g gs ih =>
    intro h hcol c hc
    cases gs with
    | nil => exact h g (by simp) c hc
    | cons g2 gs2 =>
      rw [join_groups] at hc
      on_goal 2 => simp
      rw [List.mem_append] at hc
      rcases hc with hc | hc
      · exact h g (by simp) c hc
      · rcases List.mem_cons.mp hc with hc | hc
        · exact hc ▸ hcol
        · exact ih (fun x hx d hd => h x (by simp [hx]) d hd) hcol c hc

/-- A colon-free prefix does not affect the double-colon test. -/
theorem has_dcolon_append : ∀ g w : List Char, (∀ c ∈ g, c ≠ ':') →
    has_dcolon (g ++ w) = has_dcolon w := by
  intro g
  induction g with
  | nil => intro w _; rfl
  | cons c g ih =>
    intro w h
    rw [List.cons_append, has_dcolon, ih w (fun x hx => h x (by simp [hx]))]
    simp [h c (by simp)]

/-- The first group of a join heads the join when it is nonempty. -/
theorem join_head (g : List Char) (gs : List (List Char)) (hne : g ≠ []) :
    (join_groups (g :: gs)).head? = g.head? := by
  cases gs with
  | nil => rfl
  | cons g2 gs2 =>
    rw [join_groups]
    on_goal 2 => simp
    cases g with
    | nil => exact absurd rfl hne
    | cons c cs => rfl

/-- A join of nonempty colon-free groups has no double colon. -/
theorem has_dcolon_join : ∀ gs : List (List Char),
    (∀ g ∈ gs, ∀ c ∈ g, c ≠ ':') → (∀ g ∈ gs, g ≠ []) →
    has_dcolon (join_groups gs) = false := by
  intro gs
  induction gs with
  | nil => intro _ _; rfl
  | cons g gs ih =>
    intro h hne
    cases gs with
    | nil =>
      have := has_dcolon_append g [] (h g (by simp))
      simpa using this
    | cons g2 gs2 =>
      rw [join_groups]
      on_goal 2 => simp
      rw [has_dcolon_append g _ (h g (by simp)), has_dcolon]
      rw [ih (fun x hx c hc => h x (by simp [hx]) c hc) (fun x hx => hne x (by simp [hx]))]
      rw [join_head g2 gs2 (hne g2 (by simp))]
      cases g2 with
      | nil => exact absurd rfl (hne [] (by simp))
      | cons d ds =>
        have hd : d ≠ ':' := h (d :: ds) (by simp) d (by simp)
        simp [hd]

/-- Without a double colon the splitter finds none. -/
theorem split_dcolon_none : ∀ s : List Char, has_dcolon s = false →
    split_dcolon s = none := by
  intro s
  induction s with
  | nil => intro _; rfl
  | cons c cs ih =>
    intro h
    rw [has_dcolon, Bool.or_eq_false_iff] at h
    rw [split_dcolon, if_neg ?_, ih h.2]
    intro ⟨h1, h2⟩
    rw [h1, h2] at h
    simp at h

/-- The first closing bracket after a bracket-free prefix stands at the
prefix's length. -/
theorem idx_rbracket_append : ∀ u w : List Char, (∀ c ∈ u, c ≠ ']') →
    idx_rbracket (u ++ ']' :: w) = some u.length := by
  intro u
  induction u with
  | nil => intro w _; rfl
  | cons c u ih =>
    intro w h
    rw [List.cons_append, idx_rbracket, if_neg (h c (by simp)),
      ih w (fun x hx => h x (by simp [hx]))]
    simp

end Rsmtp

namespace Rsmtp

/-- The dotted quad of four octet texts parses back to the four
values. -/
theorem parse_ipv4_quad_fmt (a b c d : Nat)
    (ha : a < 256) (hb : b < 256) (hc : c < 256) (hd : d < 256) :
    parse_ipv4_quad
        (fmt_dec a ++ '.' :: (fmt_dec b ++ '.' :: (fmt_dec c ++ '.' :: fmt_dec d)))
      = some (.Ipv4Addr a b c d) := by
  have hno : ∀ n, n < 256 → ∀ ch ∈ fmt_dec n, ch ≠ '.' := by
    intro n hn ch hch
    exact (digit_ne (List.all_eq_true.mp (fmt_dec_ok n hn).2.2.2 ch hch)).1
  rw [parse_ipv4_quad, split_on_sep_cons '.' _ _ (hno a ha),
    split_on_sep_cons '.' _ _ (hno b hb), split_on_sep_cons '.' _ _ (hno c hc),
    split_on_no_sep '.' _ (hno d hd)]
  simp only []
  rw [(fmt_dec_ok a ha).1, (fmt_dec_ok b hb).1, (fmt_dec_ok c hc).1, (fmt_dec_ok d hd).1]

/-- A list of group texts parses back to the group values. -/
theorem parse_hex_groups_fmt : ∀ vs : List Nat, (∀ v ∈ vs, v < 65536) →
    parse_hex_groups (vs.map fmt_hex) = some vs := by
  intro vs
  induction vs with
  | nil => intro _; rfl
  | cons v vs ih =>
    intro h
    rw [List.map_cons, parse_hex_groups, parse_hex_group_fmt v (h v (by simp)),
      ih (fun x hx => h x (by simp [hx]))]

/-- The uncompressed eight-group join parses back to the eight group
values. -/
theorem parse_ipv6_text_fmt (v1 v2 v3 v4 v5 v6 v7 v8 : Nat)
    (hb1 : v1 < 65536) (hb2 : v2 < 65536) (hb3 : v3 < 65536) (hb4 : v4 < 65536)
    (hb5 : v5 < 65536) (hb6 : v6 < 65536) (hb7 : v7 < 65536) (hb8 : v8 < 65536) :
    parse_ipv6_text (join_groups ([v1, v2, v3, v4, v5, v6, v7, v8].map fmt_hex))
      = some (.Ipv6Addr v1 v2 v3 v4 v5 v6 v7 v8) := by
  have hbs : ∀ v ∈ [v1, v2, v3, v4, v5, v6, v7, v8], v < 65536 := by
    intro v hv
    simp only [List.mem_cons, List.not_mem_nil, or_false] at hv
    rcases hv with h | h | h | h | h | h | h | h <;> subst h <;> assumption
  have hg : ∀ g ∈ [v1, v2, v3, v4, v5, v6, v7, v8].map fmt_hex, ∀ c ∈ g, c ≠ ':' := by
    intro g hgm c hcg
    rw [List.mem_map] at hgm
    obtain ⟨v, hv, rfl⟩ := hgm
    exact (hex_ne (List.all_eq_true.mp (fmt_hex_all_hex v (hbs v hv)) c hcg)).1
  have hne : ∀ g ∈ [v1, v2, v3, v4, v5, v6, v7, v8].map fmt_hex, g ≠ [] := by
    intro g hgm
    rw [List.mem_map] at hgm
    obtain ⟨v, hv, rfl⟩ := hgm
    exact fmt_hex_ne_nil v
  rw [parse_ipv6_text, split_dcolon_none _ (has_dcolon_join _ hg hne)]
  rw [split_on_join _ hg (by simp), parse_hex_groups_fmt _ hbs]

end Rsmtp

namespace Rsmtp

/-- The serialized ipv4 literal re-parses in the foreign stage to the
same address, consuming its whole length. -/
theorem parse_foreign_v4 (a b c d : Nat)
    (ha : a < 256) (hb : b < 256) (hc : c < 256) (hd : d < 256) :
    parse_foreign (foreign_serialization (.IpAddr (.Ipv4Addr a b c d)))
      = .ok (.IpAddr (.Ipv4Addr a b c d),
             (foreign_serialization (.IpAddr (.Ipv4Addr a b c d))).length) := by
  have hq1 : ∀ n, n < 256 → ∀ ch ∈ fmt_dec n, is_digit ch = true :=
    fun n hn ch hch => List.all_eq_true.mp (fmt_dec_ok n hn).2.2.2 ch hch
  obtain ⟨c0, t, he⟩ := List.exists_cons_of_ne_nil (fmt_dec_ok a ha).2.2.1
  set q := fmt_dec a ++ '.' :: (fmt_dec b ++ '.' :: (fmt_dec c ++ '.' :: fmt_dec d))
    with hqdef
  have hq : foreign_serialization (.IpAddr (.Ipv4Addr a b c d)) = '[' :: (q ++ [']']) := by
    rw [hqdef]
    rfl
  have hqnb : ∀ ch ∈ q, ch ≠ ']' := by
    intro ch hch
    rw [hqdef] at hch
    simp only [List.mem_append, List.mem_cons] at hch
    rcases hch with h | h | h | h | h | h | h
    · exact (digit_ne (hq1 a ha ch h)).2.1
    · subst h; decide
    · exact (digit_ne (hq1 b hb ch h)).2.1
    · subst h; decide
    · exact (digit_ne (hq1 c hc ch h)).2.1
    · subst h; decide
    · exact (digit_ne (hq1 d hd ch h)).2.1
  have hqcons : q = c0 :: (t ++ '.' :: (fmt_dec b ++ '.' :: (fmt_dec c ++ '.' :: fmt_dec d))) := by
    rw [hqdef, he, List.cons_append]
  have hdg : is_digit c0 = true := hq1 a ha c0 (by rw [he]; simp)
  have hR : q ++ [']']
      = c0 :: ((t ++ '.' :: (fmt_dec b ++ '.' :: (fmt_dec c ++ '.' :: fmt_dec d))) ++ [']']) := by
    rw [hqcons]; simp
  have hidx : idx_rbracket (c0 :: ((t ++ '.' :: (fmt_dec b ++ '.'
      :: (fmt_dec c ++ '.' :: fmt_dec d))) ++ [']'])) = some q.length := by
    have h2 : c0 :: ((t ++ '.' :: (fmt_dec b ++ '.' :: (fmt_dec c ++ '.' :: fmt_dec d))) ++ [']'])
        = (c0 :: (t ++ '.' :: (fmt_dec b ++ '.' :: (fmt_dec c ++ '.' :: fmt_dec d)))) ++ ']' :: [] := by
      simp
    rw [h2, idx_rbracket_append _ _ (by rw [← hqcons]; exact hqnb)]
    rw [← hqcons]
  have hilen : get_possible_ipv4_len ('[' :: (q ++ [']'])) = q.length + 2 := by
    rw [hR, get_possible_ipv4_len]
    rw [if_neg (show ¬(('[' :: c0 :: ((t ++ '.' :: (fmt_dec b ++ '.'
      :: (fmt_dec c ++ '.' :: fmt_dec d))) ++ [']'])).length < 3) from by
        simp only [List.length_cons, List.length_append]; omega)]
    simp only [hdg, if_true]
    rw [hidx]
  have hdml : get_domain_len ('[' :: (q ++ [']'])) = 0 := by
    simp [get_domain_len, show is_alnum '[' = false from by decide]
  rw [hq, parse_foreign, hdml]
  simp only [gt_iff_lt, Nat.lt_irrefl, if_false]
  rw [hilen, if_pos (show q.length + 2 > 0 from by omega)]
  have hdt : (('[' :: (q ++ [']'])).drop 1).take (q.length + 2 - 2) = q := by
    simp [List.take_left]
  rw [hdt, rust_from_str_ip]
  rw [show parse_ipv4_quad q = some (IpAddr.Ipv4Addr a b c d) from by
    rw [hqdef]; exact parse_ipv4_quad_fmt a b c d ha hb hc hd]
  have hlen2 : ('[' :: (q ++ [']'])).length = q.length + 2 := by simp
  rw [hlen2]

end Rsmtp

namespace Rsmtp

/-- The serialized ipv6 literal re-parses in the foreign stage to the
same address, consuming its whole length. -/
theorem parse_foreign_v6 (v1 v2 v3 v4 v5 v6 v7 v8 : Nat)
    (hb1 : v1 < 65536) (hb2 : v2 < 65536) (hb3 : v3 < 65536) (hb4 : v4 < 65536)
    (hb5 : v5 < 65536) (hb6 : v6 < 65536) (hb7 : v7 < 65536) (hb8 : v8 < 65536) :
    parse_foreign (foreign_serialization (.IpAddr (.Ipv6Addr v1 v2 v3 v4 v5 v6 v7 v8)))
      = .ok (.IpAddr (.Ipv6Addr v1 v2 v3 v4 v5 v6 v7 v8),
             (foreign_serialization (.IpAddr (.Ipv6Addr v1 v2 v3 v4 v5 v6 v7 v8))).length) := by
  have hbs : ∀ v ∈ [v1, v2, v3, v4, v5, v6, v7, v8], v < 65536 := by
    intro v hv
    simp only [List.mem_cons, List.not_mem_nil, or_false] at hv
    rcases hv with h | h | h | h | h | h | h | h <;> subst h <;> assumption
  set J := join_groups ([v1, v2, v3, v4, v5, v6, v7, v8].map fmt_hex) with hJdef
  have hs : foreign_serialization (.IpAddr (.Ipv6Addr v1 v2 v3 v4 v5 v6 v7 v8))
      = ipv6_tag ++ (J ++ [']']) := by
    rw [hJdef]
    rfl
  have hallhex : ∀ c ∈ J, is_hex_digit c = true ∨ c = ':' := by
    rw [hJdef]
    refine join_mem _ ?_ (Or.inr rfl)
    intro g hgm c hcg
    rw [List.mem_map] at hgm
    obtain ⟨v, hv, rfl⟩ := hgm
    exact Or.inl (List.all_eq_true.mp (fmt_hex_all_hex v (hbs v hv)) c hcg)
  have hJnb : ∀ c ∈ J, c ≠ ']' := by
    intro c hcJ
    rcases hallhex c hcJ with h | h
    · exact (hex_ne h).2.1
    · subst h; decide
  have htag : ipv6_tag = '[' :: 'I' :: 'p' :: 'v' :: '6' :: ':' :: [] := by decide
  have hcons : ipv6_tag ++ (J ++ [']'])
      = '[' :: 'I' :: 'p' :: 'v' :: '6' :: ':' :: (J ++ [']']) := by
    rw [htag]
    rfl
  have hdml : get_domain_len (ipv6_tag ++ (J ++ [']'])) = 0 := by
    rw [hcons]
    simp [get_domain_len, show is_alnum '[' = false from by decide]
  have h4 : get_possible_ipv4_len (ipv6_tag ++ (J ++ [']'])) = 0 := by
    rw [hcons, get_possible_ipv4_len]
    split
    · rfl
    · simp [show is_digit 'I' = false from by decide]
  have hidx : idx_rbracket (J ++ ']' :: []) = some J.length := idx_rbracket_append J [] hJnb
  have h6 : get_possible_ipv6_len (ipv6_tag ++ (J ++ [']'])) = 6 + J.length + 1 := by
    rw [get_possible_ipv6_len, if_neg ?_]
    · have hdrop : (ipv6_tag ++ (J ++ [']'])).drop 6 = J ++ [']'] := by
        rw [show (6 : Nat) = ipv6_tag.length from by decide, List.drop_left]
      rw [hdrop, show J ++ [']'] = J ++ ']' :: [] from rfl, hidx]
    · refine not_or.mpr ⟨?_, ?_⟩
      · simp only [List.length_append, List.length_cons, List.length_nil,
          show ipv6_tag.length = 6 from by decide, not_lt]
        omega
      · rw [show (6 : Nat) = ipv6_tag.length from by decide, List.take_left]
        simp
  rw [hs, parse_foreign, hdml]
  simp only [gt_iff_lt, Nat.lt_irrefl, if_false]
  rw [h4]
  simp only [gt_iff_lt, Nat.lt_irrefl, if_false]
  rw [h6, if_pos (show 6 + J.length + 1 > 0 from by omega)]
  have hint : ((ipv6_tag ++ (J ++ [']'])).drop 6).take (6 + J.length + 1 - 7) = J := by
    have harith : 6 + J.length + 1 - 7 = J.length := by omega
    rw [harith, show (6 : Nat) = ipv6_tag.length from by decide, List.drop_left,
      List.take_left]
  rw [hint, rust_from_str_ip]
  have hq4 : parse_ipv4_quad J = none := by
    have hnd : ∀ c ∈ J, c ≠ '.' := by
      intro c hcJ
      rcases hallhex c hcJ with h | h
      · exact (hex_ne h).2.2
      · subst h; decide
    rw [parse_ipv4_quad, split_on_no_sep '.' J hnd]
  have hv6 : parse_ipv6_text J = some (.Ipv6Addr v1 v2 v3 v4 v5 v6 v7 v8) := by
    rw [hJdef]
    exact parse_ipv6_text_fmt v1 v2 v3 v4 v5 v6 v7 v8 hb1 hb2 hb3 hb4 hb5 hb6 hb7 hb8
  rw [hq4]
  simp only []
  rw [hv6]
  simp only []
  have hL : (ipv6_tag ++ (J ++ [']'])).length = 6 + J.length + 1 := by
    simp only [List.length_append, List.length_cons, List.length_nil,
      show ipv6_tag.length = 6 from by decide]
    omega
  rw [hL]

end Rsmtp

namespace Rsmtp

/-- The componentwise value bounds the std ip parser guarantees. -/
def ip_bounds : IpAddr → Prop
  | .Ipv4Addr a b c d => a < 256 ∧ b < 256 ∧ c < 256 ∧ d < 256
  | .Ipv6Addr a b c d e f g h =>
    a < 65536 ∧ b < 65536 ∧ c < 65536 ∧ d < 65536 ∧
    e < 65536 ∧ f < 65536 ∧ g < 65536 ∧ h < 65536

/-- A hexadecimal digit values at most fifteen. -/
theorem hex_val_le {c : Char} (h : is_hex_digit c = true) : hex_val c ≤ 15 := by
  simp only [is_hex_digit, decide_eq_true_eq] at h
  rw [hex_val]
  split_ifs <;> omega

/-- The hexadecimal fold grows by a factor of sixteen per digit. -/
theorem fold_hex_lt : ∀ g : List Char, (∀ c ∈ g, is_hex_digit c = true) →
    ∀ a : Nat, g.foldl (fun a c => a * 16 + hex_val c) a < (a + 1) * 16 ^ g.length := by
  intro g
  induction g with
  | nil => intro _ a; simp
  | cons c cs ih =>
    intro h a
    rw [List.foldl_cons]
    refine lt_of_lt_of_le (ih (fun x hx => h x (by simp [hx])) (a * 16 + hex_val c)) ?_
    have h2 : hex_val c ≤ 15 := hex_val_le (h c (by simp))
    have h3 : a * 16 + hex_val c + 1 ≤ (a + 1) * 16 := by omega
    calc (a * 16 + hex_val c + 1) * 16 ^ cs.length
        ≤ ((a + 1) * 16) * 16 ^ cs.length := Nat.mul_le_mul_right _ h3
      _ = (a + 1) * 16 ^ (c :: cs).length := by
          rw [List.length_cons, pow_succ]
          ring

/-- A parsed hexadecimal group values below two to the sixteenth. -/
theorem parse_hex_group_bound {g : List Char} {v : Nat}
    (h : parse_hex_group g = some v) : v < 65536 := by
  rw [parse_hex_group] at h
  split at h
  · rename_i hcond
    have hb := fold_hex_lt g (List.all_eq_true.mp hcond.2.2) 0
    have hp : 16 ^ g.length ≤ 65536 := by
      calc 16 ^ g.length ≤ 16 ^ 4 := Nat.pow_le_pow_right (by omega) hcond.2.1
        _ = 65536 := by norm_num
    injection h with h
    omega
  · exact absurd h (by simp)

/-- All parsed hexadecimal groups value below two to the sixteenth. -/
theorem parse_hex_groups_bound : ∀ (gs : List (List Char)) (vs : List Nat),
    parse_hex_groups gs = some vs → ∀ v ∈ vs, v < 65536 := by
  intro gs
  induction gs with
  | nil =>
    intro vs h v hv
    rw [parse_hex_groups] at h
    injection h with h
    subst h
    exact absurd hv (by simp)
  | cons g gs ih =>
    intro vs h v hv
    rw [parse_hex_groups] at h
    split at h
    · rename_i w ws heq1 heq2
      injection h with h
      subst h
      rcases List.mem_cons.mp hv with hv | hv
      · exact hv ▸ parse_hex_group_bound heq1
      · exact ih ws heq2 v hv
    · exact absurd h (by simp)

/-- A parsed decimal octet values below 256. -/
theorem parse_dec_octet_bound {g : List Char} {v : Nat}
    (h : parse_dec_octet g = some v) : v < 256 := by
  simp only [parse_dec_octet] at h
  split at h
  · split at h
    · injection h with h
      omega
    · exact absurd h (by simp)
  · exact absurd h (by simp)

/-- The dotted-quad parser only returns bounded ipv4 values. -/
theorem parse_ipv4_quad_bounds {s : List Char} {ip : IpAddr}
    (h : parse_ipv4_quad s = some ip) : ip_bounds ip := by
  rw [parse_ipv4_quad] at h
  split at h
  · split at h
    · rename_i hq1 hq2 hq3 hq4
      injection h with h
      subst h
      exact ⟨parse_dec_octet_bound hq1, parse_dec_octet_bound hq2,
        parse_dec_octet_bound hq3, parse_dec_octet_bound hq4⟩
    · exact absurd h (by simp)
  · exact absurd h (by simp)

/-- The ipv6 text parser only returns bounded ipv6 values. -/
theorem parse_ipv6_text_bounds {s : List Char} {ip : IpAddr}
    (h : parse_ipv6_text s = some ip) : ip_bounds ip := by
  rw [parse_ipv6_text] at h
  split at h
  · split at h
    · rename_i heq
      injection h with h
      subst h
      refine ⟨?_, ?_, ?_, ?_, ?_, ?_, ?_, ?_⟩ <;>
        exact parse_hex_groups_bound _ _ heq _ (by simp)
    · exact absurd h (by simp)
  · split at h
    · rename_i ls rs heq1 heq2
      split at h
      · split at h
        · rename_i heq3
          injection h with h
          subst h
          have hmem : ∀ v ∈ ls ++ (List.replicate (8 - ls.length - rs.length) 0 ++ rs),
              v < 65536 := by
            intro v hv
            rcases List.mem_append.mp hv with hv | hv
            · exact parse_hex_groups_bound _ _ heq1 v hv
            · rcases List.mem_append.mp hv with hv | hv
              · rw [List.eq_of_mem_replicate hv]; omega
              · exact parse_hex_groups_bound _ _ heq2 v hv
          refine ⟨?_, ?_, ?_, ?_, ?_, ?_, ?_, ?_⟩ <;>
            exact hmem _ (by rw [heq3]; simp)
        · exact absurd h (by simp)
      · exact absurd h (by simp)
    · exact absurd h (by simp)

/-- The modelled std ip parser only returns bounded values. -/
theorem rust_from_str_ip_bounds {s : List Char} {ip : IpAddr}
    (h : rust_from_str_ip s = some ip) : ip_bounds ip := by
  rw [rust_from_str_ip] at h
  split at h
  · rename_i heq
    injection h with h
    exact h ▸ parse_ipv4_quad_bounds heq
  · exact parse_ipv6_text_bounds h

end Rsmtp

namespace Rsmtp

/-- The shapes a local part can take when produced by the local stage: a
full nonempty dot-string of at most 64 octets, or a well-formed quoted
string of at most 64 octets. -/
def LocalShape (lp : MailboxLocalPart) : Prop :=
  (∃ ds, 0 < ds.length ∧ ds.length ≤ 64 ∧ get_dot_string_len ds = ds.length ∧
     lp = .from_dot_string ds) ∨
  (∃ mid, ValidContent mid ∧ mid.length + 2 ≤ 64 ∧
     lp = .from_quoted_string ('"' :: (mid ++ ['"'])))

/-- The shapes the foreign part of a parsed mailbox can take: a full
nonempty domain of at most 255 octets fitting the overall length gate, or
a bounded ip address. -/
def ForeignShape (mb : Mailbox) : Prop :=
  (∃ d, 0 < d.length ∧ d.length ≤ 255 ∧ get_domain_len d = d.length ∧
     mb.foreign_part = .Domain d ∧
     mb.local_part.smtp_string.length + 1 + d.length ≤ 254) ∨
  (∃ ip, mb.foreign_part = .IpAddr ip ∧ ip_bounds ip)

/-- The shape of every mailbox Mailbox::parse returns: the local part
follows a local shape and is not a casing of postmaster, or it is the
folded postmaster; the foreign part follows a foreign shape. -/
def MailboxShape (mb : Mailbox) : Prop :=
  ((LocalShape mb.local_part ∧ is_postmaster mb.local_part.human_string = false)
    ∨ mb.local_part = .from_dot_string postmaster_chars) ∧
  ForeignShape mb

/-- A casing of postmaster holds exactly ten characters. -/
theorem is_postmaster_len {h : List Char} (hp : is_postmaster h = true) :
    h.length = 10 := by
  rw [is_postmaster, Bool.and_eq_true, beq_iff_eq] at hp
  have hl := congrArg List.length hp.2
  rw [str_ascii_lower, List.length_map] at hl
  rw [hl]
  decide

/-- The information the local stage guarantees about an accepted local
part: both string forms fit inside the consumed length, the consumed
length is positive and at most 64, and the part follows a local shape. -/
theorem parse_local_ok (r : List Char) (lp : MailboxLocalPart) (k : Nat)
    (h : parse_local r = .ok (lp, k)) :
    lp.smtp_string.length ≤ k ∧ lp.human_string.length ≤ k ∧ 0 < k ∧ k ≤ 64 ∧
    LocalShape lp := by
  simp only [parse_local] at h
  split at h
  · rename_i hpos
    split at h
    · exact absurd h (by simp)
    · rename_i hle
      rw [MAX_MAILBOX_LOCAL_PART_LEN] at hle
      injection h with h
      rw [Prod.mk.injEq] at h
      obtain ⟨h1, h2⟩ := h
      subst h2
      have hlen : (r.take (get_dot_string_len r)).length = get_dot_string_len r := by
        have := get_dot_string_len_le r
        simp only [List.length_take]
        omega
      refine ⟨?_, ?_, by omega, by omega, ?_⟩
      · rw [← h1, MailboxLocalPart.from_dot_string, hlen]
      · rw [← h1, MailboxLocalPart.from_dot_string, hlen]
      · refine Or.inl ⟨r.take (get_dot_string_len r), ?_, ?_, ?_, h1.symm⟩
        · rw [hlen]; omega
        · rw [hlen]; omega
        · rw [ds_take, hlen]
  · rename_i hnpos
    split at h
    · exact absurd h (by simp)
    · rename_i hq0
      split at h
      · exact absurd h (by simp)
      · rename_i hq64
        rw [MAX_MAILBOX_LOCAL_PART_LEN] at hq64
        injection h with h
        rw [Prod.mk.injEq] at h
        obtain ⟨h1, h2⟩ := h
        subst h2
        obtain ⟨mid, htake, hvc, hmlen⟩ :=
          quoted_decompose r (by omega)
        have hfacts := content_facts mid.length mid le_rfl hvc
        rw [htake] at h1
        have hdrop1 : (('"' :: (mid ++ ['"']))).drop 1 = mid ++ ['"'] := rfl
        have hsm : lp.smtp_string.length ≤ mid.length + 2 := by
          rw [← h1]
          simp only [MailboxLocalPart.from_quoted_string, simplify_quoted_string,
            unescape_quoted_string, hdrop1]
          split
          · exact le_trans hfacts.1 (by omega)
          · simp only [List.length_cons, List.length_append, List.length_nil]
            have := hfacts.2.1
            omega
        have hhm : lp.human_string.length ≤ mid.length + 2 := by
          rw [← h1]
          simp only [MailboxLocalPart.from_quoted_string, unescape_quoted_string, hdrop1]
          exact le_trans hfacts.1 (by omega)
        refine ⟨by omega, by omega, by omega, by omega, ?_⟩
        exact Or.inr ⟨mid, hvc, by omega, h1.symm⟩

end Rsmtp

namespace Rsmtp

/-- The information the foreign stage guarantees about an accepted foreign
part consuming the whole remainder: a full nonempty domain of at most 255
octets that is the remainder itself, or a bounded ip address. -/
theorem parse_foreign_ok (u : List Char) (fp : MailboxForeignPart) (m : Nat)
    (h : parse_foreign u = .ok (fp, m)) (hm : m = u.length) :
    (∃ d, 0 < d.length ∧ d.length ≤ 255 ∧ get_domain_len d = d.length ∧
       fp = .Domain d ∧ d.length = m) ∨
    (∃ ip, fp = .IpAddr ip ∧ ip_bounds ip) := by
  simp only [parse_foreign] at h
  split at h
  · rename_i hpos
    split at h
    · exact absurd h (by simp)
    · rename_i hle
      rw [MAX_DOMAIN_LEN] at hle
      injection h with h
      rw [Prod.mk.injEq] at h
      obtain ⟨h1, h2⟩ := h
      subst h2
      have hdl : get_domain_len u ≤ u.length := by omega
      have htk : u.take (get_domain_len u) = u := by
        rw [hm]
        exact List.take_length u
      refine Or.inl ⟨u.take (get_domain_len u), ?_, ?_, ?_, h1.symm, ?_⟩
      · rw [htk]; omega
      · rw [htk]; omega
      · rw [htk]; omega
      · rw [htk]; omega
  · split at h
    · split at h
      · rename_i heq
        injection h with h
        rw [Prod.mk.injEq] at h
        exact Or.inr ⟨_, h.1.symm, rust_from_str_ip_bounds heq⟩
      · exact absurd h (by simp)
    · split at h
      · split at h
        · rename_i heq
          injection h with h
          rw [Prod.mk.injEq] at h
          exact Or.inr ⟨_, h.1.symm, rust_from_str_ip_bounds heq⟩
        · exact absurd h (by simp)
      · exact absurd h (by simp)

end Rsmtp

namespace Rsmtp

/-- Every mailbox Mailbox::parse returns follows the mailbox shape. -/
theorem parse_ok_shape (s : List Char) (mb : Mailbox)
    (h : Mailbox.parse s = .ok mb) : MailboxShape mb := by
  simp only [Mailbox.parse] at h
  split at h
  · exact absurd h (by simp)
  · rename_i lp k hl
    split at h
    · exact absurd h (by simp)
    · rename_i hklen
      split at h
      · exact absurd h (by simp)
      · split at h
        · exact absurd h (by simp)
        · rename_i fp m hf
          split at h
          · exact absurd h (by simp)
          · rename_i hconsumed
            split at h
            · exact absurd h (by simp)
            · rename_i htotal
              rw [not_not] at hconsumed
              rw [MAX_MAILBOX_LEN] at htotal
              obtain ⟨hsl, hhl, hk0, hk64, hshape⟩ := parse_local_ok _ _ _ hl
              have hmlen : m
                  = ((s.drop (get_source_route_len s)).drop (k + 1)).length := by
                rw [List.length_drop]
                omega
              have hforeign := parse_foreign_ok _ _ _ hf hmlen
              split at h
              · rename_i hpm
                injection h with h
                subst h
                refine ⟨Or.inr rfl, ?_⟩
                rcases hforeign with ⟨d, hd0, hd255, hdfull, hdfp, hdm⟩ | ⟨ip, hip, hipb⟩
                · refine Or.inl ⟨d, hd0, hd255, hdfull, hdfp, ?_⟩
                  have h10 : lp.human_string.length = 10 := is_postmaster_len hpm
                  simp only [MailboxLocalPart.from_dot_string]
                  have hpml : postmaster_chars.length = 10 := by decide
                  rw [hpml]
                  omega
                · exact Or.inr ⟨ip, hip, hipb⟩
              · rename_i hpm
                injection h with h
                subst h
                refine ⟨Or.inl ⟨hshape, eq_false_of_ne_true hpm⟩, ?_⟩
                rcases hforeign with ⟨d, hd0, hd255, hdfull, hdfp, hdm⟩ | ⟨ip, hip, hipb⟩
                · exact Or.inl ⟨d, hd0, hd255, hdfull, hdfp,
                    show lp.smtp_string.length + 1 + d.length ≤ 254 from by omega⟩
                · exact Or.inr ⟨ip, hip, hipb⟩

end Rsmtp

namespace Rsmtp

/-- Re-parsing the serialized foreign part of a shaped mailbox: the
foreign stage accepts it whole and returns the same foreign part, and the
serialized total stays inside the length gate. -/
theorem foreign_reparse (mb : Mailbox) (hfor : ForeignShape mb)
    (hsl : mb.local_part.smtp_string.length ≤ 64) :
    parse_foreign (foreign_serialization mb.foreign_part)
      = .ok (mb.foreign_part, (foreign_serialization mb.foreign_part).length) ∧
    mb.local_part.smtp_string.length + 1
      + (foreign_serialization mb.foreign_part).length ≤ 254 := by
  rcases hfor with ⟨d, hd0, hd255, hdfull, hfp, hdtot⟩ | ⟨ip, hfp, hipb⟩
  · rw [hfp]
    have hser : foreign_serialization (.Domain d) = d := rfl
    rw [hser]
    exact ⟨parse_foreign_domain d hdfull (by intro he; rw [he] at hd0; simp at hd0) hd255,
      hdtot⟩
  · rw [hfp]
    cases ip with
    | Ipv4Addr a b c d =>
      obtain ⟨ha, hb, hc, hd⟩ := hipb
      refine ⟨parse_foreign_v4 a b c d ha hb hc hd, ?_⟩
      have hl4 : (foreign_serialization (.IpAddr (.Ipv4Addr a b c d))).length ≤ 17 := by
        have h1 := (fmt_dec_ok a ha).2.1
        have h2 := (fmt_dec_ok b hb).2.1
        have h3 := (fmt_dec_ok c hc).2.1
        have h4 := (fmt_dec_ok d hd).2.1
        simp only [foreign_serialization, List.length_cons, List.length_append,
          List.length_nil]
        omega
      omega
    | Ipv6Addr v1 v2 v3 v4 v5 v6 v7 v8 =>
      obtain ⟨hb1, hb2, hb3, hb4, hb5, hb6, hb7, hb8⟩ := hipb
      refine ⟨parse_foreign_v6 v1 v2 v3 v4 v5 v6 v7 v8 hb1 hb2 hb3 hb4 hb5 hb6 hb7 hb8, ?_⟩
      have hl6 : (foreign_serialization (.IpAddr (.Ipv6Addr v1 v2 v3 v4 v5 v6 v7 v8))).length
          ≤ 46 := by
        have h1 := fmt_hex_len v1
        have h2 := fmt_hex_len v2
        have h3 := fmt_hex_len v3
        have h4 := fmt_hex_len v4
        have h5 := fmt_hex_len v5
        have h6 := fmt_hex_len v6
        have h7 := fmt_hex_len v7
        have h8 := fmt_hex_len v8
        simp only [foreign_serialization, join_groups, List.length_append,
          List.length_cons, List.length_nil, show ipv6_tag.length = 6 from by decide]
        omega
      omega

end Rsmtp

namespace Rsmtp

/-- Re-parsing the smtp form of a shaped local part before an at sign: no
source route is seen, the local stage returns exactly the same local part
consuming the whole smtp form, the form fits in 64 octets, and the
postmaster fold leaves the part unchanged. -/
theorem local_reparse (mb : Mailbox) (w : List Char)
    (hloc : (LocalShape mb.local_part ∧ is_postmaster mb.local_part.human_string = false)
      ∨ mb.local_part = .from_dot_string postmaster_chars)
    (hne : mb.local_part.smtp_string ≠ []) :
    get_source_route_len (mb.local_part.smtp_string ++ '@' :: w) = 0 ∧
    parse_local (mb.local_part.smtp_string ++ '@' :: w)
      = .ok (mb.local_part, mb.local_part.smtp_string.length) ∧
    mb.local_part.smtp_string.length ≤ 64 ∧
    (if is_postmaster mb.local_part.human_string then
        MailboxLocalPart.from_dot_string postmaster_chars
      else mb.local_part) = mb.local_part := by
  rcases hloc with ⟨hshape, hpm⟩ | hpmcase
  · rcases hshape with ⟨ds, hds0, hds64, hdsfull, hlp⟩ | ⟨mid, hvc, hm64, hlp⟩
    · -- dot-string local part
      have hsm : mb.local_part.smtp_string = ds := by rw [hlp]; rfl
      have hdsne : ds ≠ [] := by
        intro he
        rw [he] at hds0
        simp at hds0
      refine ⟨?_, ?_, ?_, ?_⟩
      · rw [hsm]
        exact source_route_zero_dot ds _ hdsfull hdsne
      · rw [hsm, parse_local_dot ds w hdsfull hdsne hds64, hlp]
      · rw [hsm]; omega
      · simp [hpm]
    · -- quoted local part
      have hfacts := content_facts mid.length mid le_rfl hvc
      have hdrop1 : (('"' :: (mid ++ ['"']))).drop 1 = mid ++ ['"'] := rfl
      have hhm : mb.local_part.human_string = unescape_loop (mid ++ ['"']) := by
        rw [hlp]
        simp only [MailboxLocalPart.from_quoted_string, unescape_quoted_string, hdrop1]
      have hsm0 : mb.local_part.smtp_string
          = simplify_quoted_string ('"' :: (mid ++ ['"'])) := by
        rw [hlp]
        rfl
      by_cases hdck : get_dot_string_len (unescape_loop (mid ++ ['"']))
          = (unescape_loop (mid ++ ['"'])).length
      · -- the unescaped content is itself a dot-string: the smtp form is bare
        have hsm : mb.local_part.smtp_string = unescape_loop (mid ++ ['"']) := by
          rw [hsm0]
          simp only [simplify_quoted_string, unescape_quoted_string, hdrop1]
          rw [if_pos hdck]
        have houtne : unescape_loop (mid ++ ['"']) ≠ [] := by
          rw [← hsm]; exact hne
        have hout64 : (unescape_loop (mid ++ ['"'])).length ≤ 64 :=
          le_trans hfacts.1 (by omega)
        have heta : mb.local_part
            = ⟨mb.local_part.smtp_string, mb.local_part.human_string⟩ := rfl
        have hrec : mb.local_part
            = .from_dot_string (unescape_loop (mid ++ ['"'])) := by
          conv_lhs => rw [heta]
          rw [hsm, hhm]
          rfl
        refine ⟨?_, ?_, ?_, ?_⟩
        · rw [hsm]
          exact source_route_zero_dot _ _ hdck houtne
        · rw [hsm, parse_local_dot _ w hdck houtne hout64, hrec]
        · rw [hsm]; omega
        · simp [hpm]
      · -- the smtp form stays quoted, with useless escapes dropped
        have hsm : mb.local_part.smtp_string
            = '"' :: (simplify_loop (mid ++ ['"']) ++ ['"']) := by
          rw [hsm0]
          simp only [simplify_quoted_string, unescape_quoted_string, hdrop1]
          rw [if_neg hdck]
        have hvc2 : ValidContent (simplify_loop (mid ++ ['"'])) := hfacts.2.2.1
        have hlen2 : (simplify_loop (mid ++ ['"'])).length + 2 ≤ 64 := by
          have := hfacts.2.1
          omega
        have hql := parse_local_quoted (simplify_loop (mid ++ ['"'])) ('@' :: w) hvc2 hlen2
        have hq2 : MailboxLocalPart.from_quoted_string
              ('"' :: (simplify_loop (mid ++ ['"']) ++ ['"']))
            = ⟨'"' :: (simplify_loop (mid ++ ['"']) ++ ['"']),
               unescape_loop (mid ++ ['"'])⟩ := by
          simp only [MailboxLocalPart.from_quoted_string, simplify_quoted_string,
            unescape_quoted_string]
          have hdrop2 : (('"' :: (simplify_loop (mid ++ ['"']) ++ ['"']))).drop 1
              = simplify_loop (mid ++ ['"']) ++ ['"'] := rfl
          rw [hdrop2, hfacts.2.2.2.1, if_neg hdck, hfacts.2.2.2.2]
        have heta : mb.local_part
            = ⟨mb.local_part.smtp_string, mb.local_part.human_string⟩ := rfl
        have hrec : mb.local_part
            = .from_quoted_string ('"' :: (simplify_loop (mid ++ ['"']) ++ ['"'])) := by
          conv_lhs => rw [heta]
          rw [hsm, hhm, hq2]
        refine ⟨?_, ?_, ?_, ?_⟩
        · rw [hsm, List.cons_append]
          exact source_route_zero_quote _
        · have hlc : ('"' :: (simplify_loop (mid ++ ['"']) ++ ['"'])).length
              = (simplify_loop (mid ++ ['"'])).length + 2 := by simp
          rw [hsm, hql, hrec, hlc]
        · rw [hsm]
          simp only [List.length_cons, List.length_append, List.length_nil]
          omega
        · simp [hpm]
  · -- the folded postmaster local part
    have hsm : mb.local_part.smtp_string = postmaster_chars := by rw [hpmcase]; rfl
    have hhm : mb.local_part.human_string = postmaster_chars := by rw [hpmcase]; rfl
    refine ⟨?_, ?_, ?_, ?_⟩
    · rw [hsm]
      exact source_route_zero_dot _ _ (by decide) (by decide)
    · rw [hsm, parse_local_dot postmaster_chars w (by decide) (by decide) (by decide),
        hpmcase]
    · rw [hsm]; decide
    · rw [hhm, if_pos (by decide)]
      exact hpmcase.symm

end Rsmtp

namespace Rsmtp

/-- A shaped mailbox with a nonempty smtp local form re-parses from its
serialization to itself. -/
theorem reparse_of_shape (mb : Mailbox) (hs : MailboxShape mb)
    (hne : mb.local_part.smtp_string ≠ []) :
    Mailbox.parse (smtp_serialization mb) = .ok mb := by
  obtain ⟨hloc, hfor⟩ := hs
  obtain ⟨h0, hl, h64, hfold⟩ :=
    local_reparse mb (foreign_serialization mb.foreign_part) hloc hne
  obtain ⟨hf, htot⟩ := foreign_reparse mb hfor h64
  rw [smtp_serialization,
    parse_append_eval _ _ mb.local_part mb.foreign_part h0 hl hf,
    if_neg (show ¬(mb.local_part.smtp_string.length + 1
      + (foreign_serialization mb.foreign_part).length > 254) from by omega)]
  by_cases hp : is_postmaster mb.local_part.human_string = true
  · rw [if_pos hp]
    rw [if_pos hp] at hfold
    rw [hfold]
  · rw [if_neg hp]

end Rsmtp

namespace Rsmtpc

open Rsmtp

/-- C4: the round-trip fails on the empty quoted string: parse accepts
it, its smtp form is empty, and the serialization built from that smtp
form no longer parses. -/
theorem C4_counterexample :
    Mailbox.parse ("\"\"@x".toList)
      = .ok { local_part := { smtp_string := [], human_string := [] },
              foreign_part := .Domain ("x".toList) } ∧
    smtp_serialization
        { local_part := { smtp_string := [], human_string := [] },
          foreign_part := .Domain ("x".toList) }
      = "@x".toList ∧
    Mailbox.parse ("@x".toList) = .error .LocalPartUnrecognized := by
  decide

/-- C4 (amended with a nonempty smtp form): for every input s on which
Mailbox::parse succeeds with a mailbox whose smtp-form local part is
nonempty, re-parsing the serialization built from the smtp-form local
part, an at sign and the foreign part succeeds and yields an equal
Mailbox. -/
theorem C4_amended (s : List Char) (mb : Mailbox)
    (h : Mailbox.parse s = .ok mb)
    (hne : mb.local_part.smtp_string ≠ []) :
    Mailbox.parse (smtp_serialization mb) = .ok mb :=
  reparse_of_shape mb (parse_ok_shape s mb h) hne

/-- Witness instantiating C4_amended on a quoted local part whose
simplification drops an escape. -/
theorem C4_witness :
    Mailbox.parse (smtp_serialization
        { local_part := { smtp_string := "\"rust a cool\"".toList,
                          human_string := "rust a cool".toList },
          foreign_part := .Domain ("rustastic.org".toList) })
      = .ok { local_part := { smtp_string := "\"rust a cool\"".toList,
                              human_string := "rust a cool".toList },
              foreign_part := .Domain ("rustastic.org".toList) } :=
  C4_amended ("\"rust \\a cool\"@rustastic.org".toList) _ (by decide) (by decide)

end Rsmtpc
